import Mathlib

/-!
Verification of sirdata-conf-lib: tag-path resolution, condition algebra and checker.

A shallow embedding of `tags.go`, `configuration.go` and `default.go`.

* A Go panic is the `.error` case of `Except String _`, carrying the panic text.
* `reflect.Value` is the tree `Value`: every node carries the address that
  `Addr().Pointer()` reports (`none` when the value is not addressable).
* A `*string`, `*int` or `*bool` is the address of a live cell of `Mem`; reading
  through the pointer is a lookup in the memory that is current at that moment.
* A closure `func() T` that reads fields is a function `Mem → T`.
-/

namespace SirdataConf

/-- Equality of results is decidable, so that closed instances can be evaluated. -/
instance instDecidableEqExcept {ε α : Type} [DecidableEq ε] [DecidableEq α] :
    DecidableEq (Except ε α)
  | .ok a, .ok b => if h : a = b then isTrue (by rw [h]) else isFalse (fun h2 => h (by cases h2; rfl))
  | .error a, .error b =>
    if h : a = b then isTrue (by rw [h]) else isFalse (fun h2 => h (by cases h2; rfl))
  | .ok _, .error _ => isFalse (fun h => by cases h)
  | .error _, .ok _ => isFalse (fun h => by cases h)

/-! ## Reflection view of the configuration -/

/-- The cases of `reflect.Kind` the library tells apart; `Scalar` stands for every kind
other than `Invalid`, `Ptr` and `Struct`. -/
inductive Kind
  | Invalid
  | Ptr
  | Struct
  | Scalar
  deriving DecidableEq, Repr

/-- A `reflect.StructField`: the declared name and the struct tag, held as the key/value
pairs that `StructTag.Get` looks up. -/
structure StructField where
  name : String
  tag : List (String × String)
  deriving DecidableEq, Repr

/-- Go expression `field.Tag.Get(key)`: the value stored under `key`, or the empty string. -/
def StructField.tagGet (field : StructField) (key : String) : String :=
  (field.tag.lookup key).getD ""

mutual
/-- A `reflect.Value` reached from the configuration: the zero Value (what `Elem()` gives
on a nil pointer), a value of scalar kind, a pointer with its `Elem()`, or a structure
with its fields in declaration order. -/
inductive Value
  | invalid
  | scalar (addr : Option Nat)
  | ptr (addr : Option Nat) (elem : Value)
  | struct (addr : Option Nat) (fields : Fields)
/-- The fields of a structure value, in declaration order, each with `Type().Field(i)`
and `Field(i)`. -/
inductive Fields
  | nil
  | cons (field : StructField) (value : Value) (rest : Fields)
end

/-- Go expression `value.Kind()`. -/
def Value.Kind : Value → Kind
  | .invalid => .Invalid
  | .scalar _ => .Scalar
  | .ptr _ _ => .Ptr
  | .struct _ _ => .Struct

/-- Go expression `value.Elem()` for a value of kind `Ptr`. -/
def Value.Elem : Value → Value
  | .ptr _ e => e
  | _ => .invalid

/-- Go expression `value.Addr().Pointer()`: panics on a value that is not addressable, the zero Value
included. -/
def Value.AddrPointer : Value → Except String Nat
  | .invalid => .error "reflect.Value.Addr of unaddressable value"
  | .scalar a | .ptr a _ | .struct a _ =>
    match a with
    | some p => .ok p
    | none => .error "reflect.Value.Addr of unaddressable value"

/-- The argument `searched interface{}` as `reflect.ValueOf` sees it: either a value that is
not a pointer, or a pointer of Go type `typ` whose `Elem()` has kind `elemKind` and whose
`Pointer()` is `addr`. -/
inductive Searched
  | nonPointer
  | pointer (typ : String) (elemKind : Kind) (addr : Nat)
  deriving Repr

/-! ## Library functions of Go used by the source -/

/-- Go expression `strings.Split(s, ",")[0]`: the text before the first comma, all of `s` when it has
none. -/
def firstCommaSegment (s : String) : String :=
  String.mk (s.data.takeWhile (fun ch => ch != ','))

/-- Go expression `strings.Join(elems, sep)`. -/
def stringsJoin : List String → String → String
  | [], _ => ""
  | [a], _ => a
  | a :: b :: rest, sep => a ++ sep ++ stringsJoin (b :: rest) sep

/-! ## tags.go -/

/-- Source function `buildTag` of tags.go; `tagSpec` is the pair returned by the naming scheme. -/
def buildTag (tagSpec : String × String) (field : StructField) (strPrefix : String) : String :=
  let tagName := tagSpec.1
  let tagSep := tagSpec.2
  let localTag := field.tagGet tagName
  let localTag := firstCommaSegment localTag
  if strPrefix = "" then
    localTag
  else
    strPrefix ++ tagSep ++ localTag

mutual
/-- Source function `getTagKeyRecursive` of tags.go. -/
def getTagKeyRecursive (tagSpec : String × String) (value : Value) (ptr : Nat) (tag : String) :
    Except String (String × Bool) :=
  match value with
  | .ptr _ e => getTagKeyRecursive tagSpec e ptr tag
  | .struct a fields =>
    match getTagKeyFields tagSpec fields ptr tag with
    | .error e => .error e
    | .ok (some elemTag) => .ok (elemTag, true)
    | .ok none =>
      match (Value.struct a fields).AddrPointer with
      | .error e => .error e
      | .ok p => if p = ptr then .ok (tag, true) else .ok ("", false)
  | .scalar a =>
    match (Value.scalar a).AddrPointer with
    | .error e => .error e
    | .ok p => if p = ptr then .ok (tag, true) else .ok ("", false)
  | .invalid =>
    match Value.invalid.AddrPointer with
    | .error e => .error e
    | .ok p => if p = ptr then .ok (tag, true) else .ok ("", false)
/-- The `for i := 0; i < value.NumField(); i++` loop of `getTagKeyRecursive`, from the
current field on: `some elemTag` when a field reports a match, `none` when the loop runs
out. -/
def getTagKeyFields (tagSpec : String × String) (fields : Fields) (ptr : Nat) (tag : String) :
    Except String (Option String) :=
  match fields with
  | .nil => .ok none
  | .cons structField v rest =>
    match getTagKeyRecursive tagSpec v ptr (buildTag tagSpec structField tag) with
    | .error e => .error e
    | .ok (elemTag, true) => .ok (some elemTag)
    | .ok (_, false) => getTagKeyFields tagSpec rest ptr tag
end

/-- Source function `GetTagKey` of tags.go; `config` is `reflect.ValueOf(config)`. -/
def GetTagKey (tagSpec : String × String) (config : Value) (searched : Searched) :
    Except String (String × Bool) :=
  match searched with
  | .nonPointer => .error "Pointer required"
  | .pointer _ elemKind addr =>
    if elemKind = Kind.Struct then
      .error "Illegal structure value"
    else
      getTagKeyRecursive tagSpec config addr ""

/-! ## Memory and the formatting verbs used by the source -/

/-- The scalar cells that field pointers refer to, one address space per Go type. -/
structure Mem where
  str : Nat → String
  int : Nat → Int
  bool : Nat → Bool
  uint16 : Nat → Nat
  uint : Nat → Nat
  duration : Nat → Int

/-- A `*string` passed as `interface{}`. -/
def strPtr (entry : Nat) : Searched := .pointer "*string" .Scalar entry

/-- An `*int` passed as `interface{}`. -/
def intPtr (entry : Nat) : Searched := .pointer "*int" .Scalar entry

/-- A `*bool` passed as `interface{}`. -/
def boolPtr (entry : Nat) : Searched := .pointer "*bool" .Scalar entry

/-- What `fmt` prints for the verb `%s` applied to a pointer to a scalar: the verb does not
apply to pointers, so the bad-verb form `%!s(type=0xaddr)` comes out (`<nil>` for a nil
pointer). The non-pointer case is never rendered by the library, `GetTagKey` panics
first. -/
def sprintfS : Searched → String
  | .nonPointer => "%!s(?)"
  | .pointer typ _ addr =>
    "%!s(" ++ typ ++ "=" ++ (if addr = 0 then "<nil>" else "0x" ++ String.mk (Nat.toDigits 16 addr))
      ++ ")"

/-- What `fmt` prints for `%s` applied to a `[]string`. -/
def sprintfStrings (values : List String) : String :=
  "[" ++ stringsJoin values " " ++ "]"

/-- What `fmt` prints for `%d`. -/
def sprintfD (value : Int) : String :=
  match value with
  | .ofNat n => String.mk (Nat.toDigits 10 n)
  | .negSucc n => "-" ++ String.mk (Nat.toDigits 10 (n + 1))

/-- What `fmt` prints for `%t`. -/
def sprintfT (value : Bool) : String :=
  if value then "true" else "false"

/-! ## configuration.go: conditions -/

/-- The reserved value of an integer entry that was not configured. -/
def IntUndefined : Int := -1

/-- The struct `condition`: two deferred functions, which read the fields when called.
Rendering can panic, because it resolves tag paths by reflection. -/
structure Condition where
  desc : Mem → Except String String
  evaluate : Mem → Bool

/-- Source function `condition.Desc`. -/
def Condition.Desc (c : Condition) (m : Mem) : Except String String := c.desc m

/-- Source function `condition.Evaluate`. -/
def Condition.Evaluate (c : Condition) (m : Mem) : Bool := c.evaluate m

/-- Source function `When` of configuration.go. -/
def When (desc : Mem → Except String String) (evaluate : Mem → Bool) : Condition :=
  { desc := desc, evaluate := evaluate }

/-- Source function `evalDescs`: calls every description in order. -/
def evalDescs (descs : List (Mem → Except String String)) (m : Mem) :
    Except String (List String) :=
  match descs with
  | [] => .ok []
  | desc :: rest =>
    match desc m with
    | .error e => .error e
    | .ok d =>
      match evalDescs rest m with
      | .error e => .error e
      | .ok ds => .ok (d :: ds)

/-- Source function `splitConds`. -/
def splitConds (conds : List Condition) :
    List (Mem → Except String String) × List (Mem → Bool) :=
  (conds.map (fun cond => cond.Desc), conds.map (fun cond => cond.Evaluate))

/-- The loop of the `evaluate` closure of `Or`. -/
def orEvaluate (evals : List (Mem → Bool)) (m : Mem) : Bool :=
  match evals with
  | [] => false
  | eval :: rest => if eval m then true else orEvaluate rest m

/-- The loop of the `evaluate` closure of `And`. -/
def andEvaluate (evals : List (Mem → Bool)) (m : Mem) : Bool :=
  match evals with
  | [] => true
  | eval :: rest => if !eval m then false else andEvaluate rest m

/-- Source function `Or` of configuration.go. -/
def Or (conds : List Condition) : Condition :=
  let split := splitConds conds
  { desc := fun m =>
      match evalDescs split.1 m with
      | .error e => .error e
      | .ok ds => .ok (stringsJoin ds " or ")
    evaluate := fun m => orEvaluate split.2 m }

/-- Source function `And` of configuration.go. -/
def And (conds : List Condition) : Condition :=
  let split := splitConds conds
  { desc := fun m =>
      match evalDescs split.1 m with
      | .error e => .error e
      | .ok ds => .ok (stringsJoin ds " and ")
    evaluate := fun m => andEvaluate split.2 m }

/-! ## configuration.go: verifiers and the checker -/

/-- The struct `conditionVerifier`, the only implementation of the interface `verifier`. -/
structure Verifier where
  cond : Condition

/-- Source function `conditionVerifier.verify`; an `error` made by `errors.New` is its message. -/
def Verifier.verify (cv : Verifier) (m : Mem) : Except String (Bool × List String) :=
  let ok := cv.cond.Evaluate m
  if ok then
    .ok (true, [])
  else
    match cv.cond.Desc m with
    | .error e => .error e
    | .ok d => .ok (false, [d])

/-- The struct `Checker`; `config` is held as `reflect.ValueOf(config)` shows it. -/
structure Checker where
  config : Value
  tagSpec : String × String
  verifiers : List Verifier

/-- Source function `Checker.GetTagKey`. -/
def Checker.GetTagKey (c : Checker) (searched : Searched) : Except String (String × Bool) :=
  SirdataConf.GetTagKey c.tagSpec c.config searched

/-- Source function `Checker.tagKeyOrValue`. -/
def Checker.tagKeyOrValue (c : Checker) (searched : Searched) : Except String String :=
  match SirdataConf.GetTagKey c.tagSpec c.config searched with
  | .error e => .error e
  | .ok (tag, true) => .ok tag
  | .ok (_, false) => .ok (" entry holding value " ++ sprintfS searched)

/-- Source function `NewChecker` of configuration.go. -/
def NewChecker (config : Value) (tagSpec : String × String) : Except String Checker :=
  if config.Kind != Kind.Ptr || config.Elem.Kind != Kind.Struct then
    .error "Illegal config: must be a pointer to a structure"
  else
    .ok { config := config, tagSpec := tagSpec, verifiers := [] }

/-- Source function `NewYamlChecker`. -/
def NewYamlChecker (config : Value) : Except String Checker :=
  NewChecker config ("yaml", ".")

/-- Source function `NewJsonChecker`. -/
def NewJsonChecker (config : Value) : Except String Checker :=
  NewChecker config ("json", ".")

/-- Source function `Checker.addVerifier`. -/
def Checker.addVerifier (c : Checker) (verifier : Verifier) : Checker :=
  { c with verifiers := c.verifiers ++ [verifier] }

/-- The `for _, verifier := range c.verifiers` loop of `Verify`, carrying `ok` and
`errs`. -/
def verifyLoop (verifiers : List Verifier) (m : Mem) (ok : Bool) (errs : List String) :
    Except String (Bool × List String) :=
  match verifiers with
  | [] => .ok (ok, errs)
  | verifier :: rest =>
    match verifier.verify m with
    | .error e => .error e
    | .ok (isOk, verifyErrors) =>
      if !isOk then
        verifyLoop rest m false (errs ++ verifyErrors)
      else
        verifyLoop rest m ok errs

/-- Source function `Checker.Verify`; the nil slice and the empty slice are both the empty list. -/
def Checker.Verify (c : Checker) (m : Mem) : Except String (Bool × List String) :=
  match verifyLoop c.verifiers m true [] with
  | .error e => .error e
  | .ok (ok, errs) => if ok then .ok (true, []) else .ok (false, errs)

/-! ## configuration.go: descriptions -/

/-- Source function `Checker.describeMandatory`. -/
def Checker.describeMandatory (c : Checker) (searched : Searched) :
    Mem → Except String String :=
  fun _ => do
    let tag ← c.tagKeyOrValue searched
    pure (tag ++ " is mandatory")

/-- Source function `Checker.describeXor`. -/
def Checker.describeXor (c : Checker) (first second : Searched) : Mem → Except String String :=
  fun _ => do
    let a ← c.tagKeyOrValue first
    let b ← c.tagKeyOrValue second
    pure ("either " ++ a ++ " or " ++ b ++ " is mandatory, but only one can be set")

/-- Source function `Checker.describeXorWhen`. -/
def Checker.describeXorWhen (c : Checker) (first second : Searched) (when : Condition) :
    Mem → Except String String :=
  fun m => do
    let x ← c.describeXor first second m
    let w ← when.Desc m
    pure (x ++ " when " ++ w)

/-- Source function `Checker.describeWhen`. -/
def Checker.describeWhen (_c : Checker) (desc : Mem → Except String String) (when : Condition) :
    Mem → Except String String :=
  fun m => do
    let d ← desc m
    let w ← when.Desc m
    pure (d ++ " when " ++ w)

/-! ## configuration.go: stand-alone conditions -/

/-- Source function `Checker.StringEquals`. -/
def Checker.StringEquals (c : Checker) (entry : Nat) (value : String) : Condition :=
  When
    (fun _ => do
      let tag ← c.tagKeyOrValue (strPtr entry)
      pure (tag ++ "=" ++ value))
    (fun m => m.str entry == value)

/-- Source function `Checker.StringNotEmpty`. -/
def Checker.StringNotEmpty (c : Checker) (entry : Nat) : Condition :=
  When
    (fun _ => do
      let tag ← c.tagKeyOrValue (strPtr entry)
      pure (tag ++ " is not empty"))
    (fun m => m.str entry != "")

/-- The loop `for _, value := range values` that looks for the entry's value. -/
def containsValue (values : List String) (entry : String) : Bool :=
  match values with
  | [] => false
  | value :: rest => if value == entry then true else containsValue rest entry

/-- Source function `Checker.StringIn`. -/
def Checker.StringIn (c : Checker) (entry : Nat) (values : List String) : Condition :=
  When
    (fun _ => do
      let tag ← c.tagKeyOrValue (strPtr entry)
      pure (tag ++ " in contained in " ++ sprintfStrings values))
    (fun m => containsValue values (m.str entry))

/-- Source function `Checker.IntEquals`. -/
def Checker.IntEquals (c : Checker) (entry : Nat) (value : Int) : Condition :=
  When
    (fun _ => do
      let tag ← c.tagKeyOrValue (intPtr entry)
      pure (tag ++ "=" ++ sprintfD value))
    (fun m => m.int entry == value)

/-- Source function `Checker.BoolEquals`. -/
def Checker.BoolEquals (c : Checker) (entry : Nat) (value : Bool) : Condition :=
  When
    (fun _ => do
      let tag ← c.tagKeyOrValue (boolPtr entry)
      pure (tag ++ "=" ++ sprintfT value))
    (fun m => m.bool entry == value)

/-! ## configuration.go: rule builders -/

/-- Source function `Checker.AddCondition`. -/
def Checker.AddCondition (c : Checker) (evaluate : Mem → Bool)
    (desc : Mem → Except String String) : Checker :=
  let verifier : Verifier := { cond := { desc := desc, evaluate := evaluate } }
  c.addVerifier verifier

/-- Source function `Checker.StringCondition`. -/
def Checker.StringCondition (c : Checker) (evaluate : Mem → Bool)
    (desc : Mem → Except String String) : Checker :=
  c.AddCondition evaluate desc

/-- Source function `Checker.IntCondition`. -/
def Checker.IntCondition (c : Checker) (evaluate : Mem → Bool)
    (desc : Mem → Except String String) : Checker :=
  c.AddCondition evaluate desc

/-- Source function `Checker.evaluateStringMandatoryWhen`. -/
def Checker.evaluateStringMandatoryWhen (_c : Checker) (entry : Nat) (when : Condition) :
    Mem → Bool :=
  fun m => m.str entry != "" || !when.Evaluate m

/-- Source function `Checker.evaluateStringXorWhen`. -/
def Checker.evaluateStringXorWhen (_c : Checker) (first second : Nat) (when : Condition) :
    Mem → Bool :=
  fun m => ((m.str first == "") != (m.str second == "")) || !when.Evaluate m

/-- Source function `Checker.enumValueCondition`. -/
def Checker.enumValueCondition (c : Checker) (entry : Nat) (values : List String) : Condition :=
  { desc := fun _ => do
      let tag ← c.tagKeyOrValue (strPtr entry)
      pure ("value of " ++ tag ++ " must be in " ++ sprintfStrings values)
    evaluate := fun m =>
      if m.str entry == "" then
        true
      else
        containsValue values (m.str entry) }

/-- Source function `Checker.StringMandatory`. -/
def Checker.StringMandatory (c : Checker) (entry : Nat) : Checker :=
  c.StringCondition (fun m => m.str entry != "") (c.describeMandatory (strPtr entry))

/-- Source function `Checker.StringMandatoryWhen`. -/
def Checker.StringMandatoryWhen (c : Checker) (entry : Nat) (when : Condition) : Checker :=
  c.StringCondition (c.evaluateStringMandatoryWhen entry when)
    (c.describeWhen (c.describeMandatory (strPtr entry)) when)

/-- Source function `Checker.StringXor`. -/
def Checker.StringXor (c : Checker) (first second : Nat) : Checker :=
  c.StringCondition (fun m => (m.str first == "") != (m.str second == ""))
    (c.describeXor (strPtr first) (strPtr second))

/-- Source function `Checker.StringXorWhen`. -/
def Checker.StringXorWhen (c : Checker) (first second : Nat) (when : Condition) : Checker :=
  c.StringCondition (c.evaluateStringXorWhen first second when)
    (c.describeXor (strPtr first) (strPtr second))

/-- Source function `Checker.StringPattern`. The regular-expression engine is a parameter: `compile` is
`regexp.Compile`, giving either the error or the compiled expression's `Match`. The result
is the checker after the call and the returned `error` (`none` for nil). -/
def Checker.StringPattern (compile : String → Except String (String → Bool)) (c : Checker)
    (entry : Nat) (pattern : String) : Checker × Option String :=
  match compile pattern with
  | .error err => (c, some err)
  | .ok regex =>
    (c.StringCondition
      (fun m => regex (m.str entry))
      (fun _ => do
        let tag ← c.tagKeyOrValue (strPtr entry)
        pure (tag ++ " must match pattern " ++ pattern)),
     none)

/-- Source function `Checker.EnumOptional`. The memory is threaded through the call to record that the body
holds no assignment through `entry`: `dflt` (the parameter `def`) is never used. -/
def Checker.EnumOptional (c : Checker) (entry : Nat) (values : List String) (_dflt : String)
    (m : Mem) : Checker × Mem :=
  let cond := c.enumValueCondition entry values
  (c.AddCondition cond.Evaluate cond.Desc, m)

/-- Source function `Checker.EnumMandatory`. -/
def Checker.EnumMandatory (c : Checker) (entry : Nat) (values : List String) : Checker :=
  let cond := And [
    { desc := c.describeMandatory (strPtr entry)
      evaluate := fun m => m.str entry != "" },
    c.enumValueCondition entry values ]
  c.AddCondition cond.Evaluate cond.Desc

/-- Source function `Checker.EnumMandatoryWhen`. -/
def Checker.EnumMandatoryWhen (c : Checker) (entry : Nat) (values : List String)
    (when : Condition) : Checker :=
  let cond := And [
    { desc := c.describeWhen (c.describeMandatory (strPtr entry)) when
      evaluate := c.evaluateStringMandatoryWhen entry when },
    c.enumValueCondition entry values ]
  c.AddCondition cond.Evaluate cond.Desc

/-- Source function `Checker.IntMandatory`. -/
def Checker.IntMandatory (c : Checker) (entry : Nat) : Checker :=
  c.IntCondition (fun m => m.int entry != IntUndefined) (c.describeMandatory (intPtr entry))

/-- Source function `Checker.IntMandatoryWhen`. -/
def Checker.IntMandatoryWhen (c : Checker) (entry : Nat) (when : Condition) : Checker :=
  c.IntCondition
    (fun m => m.int entry != IntUndefined || !when.Evaluate m)
    (c.describeWhen (c.describeMandatory (intPtr entry)) when)

/-! ## default.go -/

/-- Source function `SetDefaultString`. -/
def SetDefaultString (entry : Nat) (dflt : String) (m : Mem) : Mem :=
  if m.str entry = "" then { m with str := Function.update m.str entry dflt } else m

/-- Source function `SetDefaultInt`. -/
def SetDefaultInt (entry : Nat) (dflt : Int) (m : Mem) : Mem :=
  if m.int entry = 0 then { m with int := Function.update m.int entry dflt } else m

/-- Source function `SetDefaultUInt16`. -/
def SetDefaultUInt16 (entry : Nat) (dflt : Nat) (m : Mem) : Mem :=
  if m.uint16 entry = 0 then { m with uint16 := Function.update m.uint16 entry dflt } else m

/-- Source function `SetDefaultUint`. -/
def SetDefaultUint (entry : Nat) (dflt : Nat) (m : Mem) : Mem :=
  if m.uint entry = 0 then { m with uint := Function.update m.uint entry dflt } else m

/-- Source function `SetDefaultDuration`. -/
def SetDefaultDuration (entry : Nat) (dflt : Int) (m : Mem) : Mem :=
  if m.duration entry = 0 then { m with duration := Function.update m.duration entry dflt }
  else m

/-! ## Vocabulary of the statements about tag paths -/

mutual
/-- The addresses of all the values reachable from a value, itself included. -/
def Value.addrs : Value → List Nat
  | .invalid => []
  | .scalar a => a.toList
  | .ptr a e => a.toList ++ e.addrs
  | .struct a fields => a.toList ++ fields.addrs
/-- The addresses of all the values reachable from a list of fields. -/
def Fields.addrs : Fields → List Nat
  | .nil => []
  | .cons _ v rest => v.addrs ++ rest.addrs
end

mutual
/-- Every pointer on the way is set, and every scalar and structure is addressable (as is
everything reached through the pointer to the root). -/
def Value.allSet : Value → Bool
  | .invalid => false
  | .scalar a => a.isSome
  | .ptr _ e => e.allSet
  | .struct a fields => a.isSome && fields.allSet
/-- The same for a list of fields. -/
def Fields.allSet : Fields → Bool
  | .nil => true
  | .cons _ v rest => v.allSet && rest.allSet
end

mutual
/-- Sibling fields occupy distinct addresses: inside every structure, no address reachable
from a field is reachable from a later field. A structure and its first field may share
their address. -/
def Value.distinct : Value → Bool
  | .invalid => true
  | .scalar _ => true
  | .ptr _ e => e.distinct
  | .struct _ fields => fields.distinct
/-- The same for a list of fields. -/
def Fields.distinct : Fields → Bool
  | .nil => true
  | .cons _ v rest =>
    v.distinct && rest.distinct && v.addrs.all (fun a => !rest.addrs.contains a)
end

mutual
/-- The scalar field found by following field indices from a value, pointers being
stepped through: the chain of enclosing fields, outermost first and the field itself last,
with the address of the scalar. -/
def Value.locate : Value → List Nat → Option (List StructField × Nat)
  | .invalid, _ => none
  | .scalar (some a), [] => some ([], a)
  | .scalar _, _ => none
  | .ptr _ e, path => e.locate path
  | .struct _ _, [] => none
  | .struct _ fields, i :: rest => fields.locate i rest
/-- The field of index `i` in a list of fields, then `Value.locate` from it. -/
def Fields.locate : Fields → Nat → List Nat → Option (List StructField × Nat)
  | .nil, _, _ => none
  | .cons f v _, 0, rest =>
    match v.locate rest with
    | none => none
    | some (chain, a) => some (f :: chain, a)
  | .cons _ _ tl, i + 1, rest => tl.locate i rest
end

/-- The first comma-delimited segment of a field's tag under the scheme's key. -/
def localTag (tagSpec : String × String) (field : StructField) : String :=
  firstCommaSegment (field.tagGet tagSpec.1)

/-- The tag that `getTagKeyRecursive` has built when it has gone down a chain of fields. -/
def pathFrom (tagSpec : String × String) (chain : List StructField) (tag : String) : String :=
  chain.foldl (fun acc field => buildTag tagSpec field acc) tag

/-! ## Vocabulary of the statements about recursion depth -/

/-- A declared Go type as far as resolution looks at it: a scalar type, a pointer type, a
structure type written in place with its fields in declaration order, or the name of a
declared structure type, which a field of that very structure may point to. -/
inductive GoType
  | scalar
  | ptr (elem : GoType)
  | struct (fields : List (StructField × GoType))
  | named (name : String)

/-- The declarations `type Name struct { ... }` of a program: each name with its fields. -/
abbrev Decls := List (String × List (StructField × GoType))

/-- The depth of the deepest field type of a structure type, given the depth of a type;
`none` when a field type has none. -/
def fieldsDepth (depthOf : GoType → Option Nat) : List (StructField × GoType) → Option Nat
  | [] => some 0
  | (_, t) :: rest =>
    match depthOf t, fieldsDepth depthOf rest with
    | some a, some b => some (max a b)
    | _, _ => none

/-- The nesting depth of a declared type, computed through at most `fuel` levels: 1 for a
scalar type, one more than the element for a pointer type, one more than the deepest field
for a structure type, a named type being the structure type it is declared as. The result
is `none` when the type is deeper than `fuel` levels, which a recursive type is for every
`fuel`. -/
def GoType.depthWithin (decls : Decls) : Nat → GoType → Option Nat
  | 0, _ => none
  | _ + 1, .scalar => some 1
  | fuel + 1, .ptr e =>
    match GoType.depthWithin decls fuel e with
    | some d => some (d + 1)
    | none => none
  | fuel + 1, .struct fields =>
    match fieldsDepth (fun t => GoType.depthWithin decls fuel t) fields with
    | some d => some (d + 1)
    | none => none
  | fuel + 1, .named name =>
    match decls.lookup name with
    | none => none
    | some fields =>
      match fieldsDepth (fun t => GoType.depthWithin decls fuel t) fields with
      | some d => some (d + 1)
      | none => none

mutual
/-- A value is of a declared type: a scalar for a scalar type; a pointer, nil or pointing to
a value of the element type, for a pointer type; a structure with the declared fields, each
of its type, for a structure type, written in place or declared under a name. -/
def Value.hasType (decls : Decls) : Value → GoType → Bool
  | .scalar _, .scalar => true
  | .ptr _ e, .ptr t => e.Kind == Kind.Invalid || e.hasType decls t
  | .struct _ fields, .struct ts => fields.hasTypes decls ts
  | .struct _ fields, .named name =>
    match decls.lookup name with
    | none => false
    | some ts => fields.hasTypes decls ts
  | _, _ => false
/-- The same for a list of fields. -/
def Fields.hasTypes (decls : Decls) : Fields → List (StructField × GoType) → Bool
  | .nil, [] => true
  | .cons f v rest, (g, t) :: ts =>
    decide (f = g) && v.hasType decls t && rest.hasTypes decls ts
  | _, _ => false
end

mutual
/-- The nesting depth of a root as a tree of values: 1 for a scalar and for the zero Value,
one more than the element for a pointer, one more than the deepest field for a
structure. -/
def Value.depth : Value → Nat
  | .invalid => 1
  | .scalar _ => 1
  | .ptr _ e => e.depth + 1
  | .struct _ fields => fields.depth + 1
/-- The depth of the deepest field. -/
def Fields.depth : Fields → Nat
  | .nil => 0
  | .cons _ v rest => max v.depth rest.depth
end

mutual
/-- Function `getTagKeyRecursive` of tags.go again, run with a budget of nested
activations: every call takes one from `depth`, and the result is `none` when a call is
made with no budget left, that is when the recursion goes deeper than `depth`. -/
def getTagKeyBounded (tagSpec : String × String) (depth : Nat) (value : Value) (ptr : Nat)
    (tag : String) : Option (Except String (String × Bool)) :=
  match depth with
  | 0 => none
  | depth + 1 =>
    match value with
    | .ptr _ e => getTagKeyBounded tagSpec depth e ptr tag
    | .struct a fields =>
      match getTagKeyFieldsBounded tagSpec depth fields ptr tag with
      | none => none
      | some (.error e) => some (.error e)
      | some (.ok (some elemTag)) => some (.ok (elemTag, true))
      | some (.ok none) =>
        match (Value.struct a fields).AddrPointer with
        | .error e => some (.error e)
        | .ok p => if p = ptr then some (.ok (tag, true)) else some (.ok ("", false))
    | .scalar a =>
      match (Value.scalar a).AddrPointer with
      | .error e => some (.error e)
      | .ok p => if p = ptr then some (.ok (tag, true)) else some (.ok ("", false))
    | .invalid =>
      match Value.invalid.AddrPointer with
      | .error e => some (.error e)
      | .ok p => if p = ptr then some (.ok (tag, true)) else some (.ok ("", false))
/-- The loop over the fields of `getTagKeyRecursive` again, each call on a field being made
with the budget `depth`. -/
def getTagKeyFieldsBounded (tagSpec : String × String) (depth : Nat) (fields : Fields)
    (ptr : Nat) (tag : String) : Option (Except String (Option String)) :=
  match fields with
  | .nil => some (.ok none)
  | .cons structField v rest =>
    match getTagKeyBounded tagSpec depth v ptr (buildTag tagSpec structField tag) with
    | none => none
    | some (.error e) => some (.error e)
    | some (.ok (elemTag, true)) => some (.ok (some elemTag))
    | some (.ok (_, false)) => getTagKeyFieldsBounded tagSpec depth rest ptr tag
end

/-! ## Example configuration -/

/-- The scheme of `NewYamlChecker`. -/
def yamlSpec : String × String := ("yaml", ".")

/-- A field declaration with a yaml tag. -/
def yamlField (name tag : String) : StructField := { name := name, tag := [("yaml", tag)] }

/-- A field declaration without any tag. -/
def plainField (name : String) : StructField := { name := name, tag := [] }

/-- What reflection shows of `&Root{...}` for
`type Inner struct { B string "yaml:b" }` and
`type Root struct { X string "yaml:x,omitempty"; A Inner "yaml:a"; U Inner; P *Inner "yaml:p" }`
with the root at address 100 and `P` pointing to an `Inner` at address 500. -/
def exampleRoot : Value :=
  .ptr none (.struct (some 100)
    (.cons (yamlField "X" "x,omitempty") (.scalar (some 100))
    (.cons (yamlField "A" "a")
      (.struct (some 116) (.cons (yamlField "B" "b") (.scalar (some 116)) .nil))
    (.cons (plainField "U")
      (.struct (some 132) (.cons (yamlField "B" "b") (.scalar (some 132)) .nil))
    (.cons (yamlField "P" "p")
      (.ptr (some 148)
        (.struct (some 500) (.cons (yamlField "B" "b") (.scalar (some 500)) .nil)))
    .nil)))))

/-- What reflection shows of `&Root{...}` for
`type Root struct { P *Inner "yaml:p"; X string "yaml:x" }` with the root at address 100
and `P` left nil. -/
def nilRoot : Value :=
  .ptr none (.struct (some 100)
    (.cons (yamlField "P" "p") (.ptr (some 100) .invalid)
    (.cons (yamlField "X" "x") (.scalar (some 108)) .nil)))

/-- The verifiers of a list that fail in a memory, in registration order. -/
def failing (verifiers : List Verifier) (m : Mem) : List Verifier :=
  verifiers.filter (fun v => !v.cond.Evaluate m)

/-- A memory in which every string is empty and every integer cell holds the reserved
`IntUndefined`. -/
def blankMem : Mem :=
  { str := fun _ => "", int := fun _ => -1, bool := fun _ => false,
    uint16 := fun _ => 0, uint := fun _ => 0, duration := fun _ => 0 }

/-- The checker over the example root with the yaml scheme, no rule registered. -/
def exampleChecker : Checker :=
  { config := exampleRoot, tagSpec := yamlSpec, verifiers := [] }

/-- The blank memory with the string at address 100, the field `x` of the example root, set
to `zzz`. -/
def zzzMem : Mem :=
  { blankMem with str := fun a => if a = 100 then "zzz" else "" }

/-- A condition that never holds. -/
def neverCond : Condition :=
  When (fun _ => .ok "never") (fun _ => false)

/-- An example regular-expression engine for patterns without metacharacters: the pattern
`(` does not compile, any other pattern matches the strings that contain it. -/
def exampleCompile (pattern : String) : Except String (String → Bool) :=
  if pattern = "(" then
    .error "error parsing regexp: missing closing )"
  else
    .ok (fun s => s.data.tails.any (fun t => pattern.data.isPrefixOf t))

/-- The loop of the `evaluate` closure of `Or` again, giving next to its result the number
of sub-evaluations it has called before returning. -/
def orEvaluateCalls (evals : List (Mem → Bool)) (m : Mem) : Bool × Nat :=
  match evals with
  | [] => (false, 0)
  | eval :: rest =>
    if eval m then
      (true, 1)
    else
      ((orEvaluateCalls rest m).1, (orEvaluateCalls rest m).2 + 1)

/-- The loop of the `evaluate` closure of `And` again, giving next to its result the number
of sub-evaluations it has called before returning. -/
def andEvaluateCalls (evals : List (Mem → Bool)) (m : Mem) : Bool × Nat :=
  match evals with
  | [] => (true, 0)
  | eval :: rest =>
    if !eval m then
      (false, 1)
    else
      ((andEvaluateCalls rest m).1, (andEvaluateCalls rest m).2 + 1)

/-- The blank memory with a string variable that is no field of the example root, at
address 900, holding `hello`. -/
def localMem : Mem :=
  { blankMem with str := fun a => if a = 900 then "hello" else "" }

/-- The declarations behind the example root: `type Inner struct { B string "yaml:b" }` and
`type Root struct { X string "yaml:x,omitempty"; A Inner "yaml:a"; U Inner; P *Inner "yaml:p" }`. -/
def exampleDecls : Decls :=
  [("Inner", [(yamlField "B" "b", .scalar)]),
   ("Root", [(yamlField "X" "x,omitempty", .scalar), (yamlField "A" "a", .named "Inner"),
     (plainField "U", .named "Inner"), (yamlField "P" "p", .ptr (.named "Inner"))])]

/-- The declared type of the example root, `*Root`. -/
def exampleType : GoType := .ptr (.named "Root")

/-- The declaration of a recursive type:
`type Node struct { Name string "yaml:name"; Next *Node "yaml:next" }`. -/
def nodeDecls : Decls :=
  [("Node", [(yamlField "Name" "name", .scalar), (yamlField "Next" "next", .ptr (.named "Node"))])]

/-- The declared type `*Node`. -/
def nodeType : GoType := .ptr (.named "Node")

/-- What a `*Node` that heads a list of `k` nodes points to: nothing for `k = 0` (the
zero Value of a nil pointer), else a node whose `Next` heads a list of `k - 1` nodes. Every
node is an allocation of its own, the last of the list at address 1000. -/
def nodeChain : Nat → Value
  | 0 => .invalid
  | k + 1 =>
    .struct (some (1000 + 32 * k))
      (.cons (yamlField "Name" "name") (.scalar (some (1000 + 32 * k)))
      (.cons (yamlField "Next" "next") (.ptr (some (1016 + 32 * k)) (nodeChain k)) .nil))

/-- What reflection shows of a pointer to the head of a list of `k` nodes. -/
def nodeList (k : Nat) : Value := .ptr none (nodeChain k)

/-- What reflection shows of `&Root{...}` for `type Inner struct { B string "yaml:b" }`,
`type Bare struct { E string }` and
`type Root struct { B string "yaml:b"; U Inner; A Bare "yaml:a" }` with the root at
address 200. -/
def clashRoot : Value :=
  .ptr none (.struct (some 200)
    (.cons (yamlField "B" "b") (.scalar (some 200))
    (.cons (plainField "U")
      (.struct (some 216) (.cons (yamlField "B" "b") (.scalar (some 216)) .nil))
    (.cons (yamlField "A" "a")
      (.struct (some 232) (.cons (plainField "E") (.scalar (some 232)) .nil))
    .nil))))

/-- What reflection shows of `&Root{...}` for `type Inner struct { B string "yaml:b" }` and
`type Root struct { Z struct{} "yaml:z"; U Inner }` with the root at address 300: `Z` has
size zero, so that `Z`, `U` and the field `B` of `U` all lie at address 300. -/
def aliasRoot : Value :=
  .ptr none (.struct (some 300)
    (.cons (yamlField "Z" "z") (.struct (some 300) .nil)
    (.cons (plainField "U")
      (.struct (some 300) (.cons (yamlField "B" "b") (.scalar (some 300)) .nil))
    .nil)))

/-! ## Lemmas on tag-path resolution -/

theorem AddrPointer_scalar_some (a : Nat) : (Value.scalar (some a)).AddrPointer = .ok a := rfl

theorem AddrPointer_struct_some (a : Nat) (fields : Fields) :
    (Value.struct (some a) fields).AddrPointer = .ok a := rfl

mutual
/-- A target that is the address of no reachable value is reported as not found, whatever
the tag built so far, provided no pointer on the way is nil. -/
theorem getTagKeyRecursive_miss (tagSpec : String × String) (p : Nat) :
    (v : Value) → v.allSet = true → p ∉ v.addrs → ∀ tag,
      getTagKeyRecursive tagSpec v p tag = .ok ("", false)
  | .invalid, h, _, _ => by simp [Value.allSet] at h
  | .scalar none, h, _, _ => by simp [Value.allSet] at h
  | .scalar (some a), _, hp, tag => by
    have hne : a ≠ p := by
      intro h; apply hp; simp [Value.addrs, h]
    simp [getTagKeyRecursive, AddrPointer_scalar_some, hne]
  | .ptr _ e, h, hp, tag => by
    have h1 : e.allSet = true := by simpa [Value.allSet] using h
    have h2 : p ∉ e.addrs := by
      intro hin; apply hp; simp [Value.addrs, hin]
    simpa [getTagKeyRecursive] using getTagKeyRecursive_miss tagSpec p e h1 h2 tag
  | .struct none fields, h, _, _ => by simp [Value.allSet] at h
  | .struct (some a) fields, h, hp, tag => by
    have h1 : fields.allSet = true := by
      simp [Value.allSet] at h; exact h
    have h2 : p ∉ fields.addrs := by
      intro hin; apply hp; simp [Value.addrs, hin]
    have hne : a ≠ p := by
      intro h; apply hp; simp [Value.addrs, h]
    have hf := getTagKeyFields_miss tagSpec p fields h1 h2 tag
    simp [getTagKeyRecursive, hf, AddrPointer_struct_some, hne]
/-- The loop over the fields runs out when the target is reachable from none of them. -/
theorem getTagKeyFields_miss (tagSpec : String × String) (p : Nat) :
    (fields : Fields) → fields.allSet = true → p ∉ fields.addrs → ∀ tag,
      getTagKeyFields tagSpec fields p tag = .ok none
  | .nil, _, _, _ => by simp [getTagKeyFields]
  | .cons f v rest, h, hp, tag => by
    have h1 : v.allSet = true ∧ rest.allSet = true := by
      simpa [Fields.allSet] using h
    have h2 : p ∉ v.addrs ∧ p ∉ rest.addrs := by
      constructor
      · intro hin; apply hp; simp [Fields.addrs, hin]
      · intro hin; apply hp; simp [Fields.addrs, hin]
    have hv := getTagKeyRecursive_miss tagSpec p v h1.1 h2.1 (buildTag tagSpec f tag)
    have hr := getTagKeyFields_miss tagSpec p rest h1.2 h2.2 tag
    simp [getTagKeyFields, hv, hr]
end

mutual
/-- A located scalar is among the reachable addresses. -/
theorem locate_mem_addrs_value :
    (v : Value) → (path : List Nat) → (chain : List StructField) → (a : Nat) →
      v.locate path = some (chain, a) → a ∈ v.addrs
  | .invalid, _, _, _, h => by simp [Value.locate] at h
  | .scalar none, path, _, _, h => by cases path <;> simp [Value.locate] at h
  | .scalar (some b), [], _, _, h => by
    simp [Value.locate] at h; simp [Value.addrs, h.2]
  | .scalar (some b), _ :: _, _, _, h => by simp [Value.locate] at h
  | .ptr _ e, path, chain, a, h => by
    have := locate_mem_addrs_value e path chain a (by simpa [Value.locate] using h)
    simp [Value.addrs, this]
  | .struct _ fields, [], _, _, h => by simp [Value.locate] at h
  | .struct _ fields, i :: rest, chain, a, h => by
    have := locate_mem_addrs_fields fields i rest chain a (by simpa [Value.locate] using h)
    simp [Value.addrs, this]
/-- The same for a list of fields. -/
theorem locate_mem_addrs_fields :
    (fields : Fields) → (i : Nat) → (rest : List Nat) → (chain : List StructField) →
      (a : Nat) → fields.locate i rest = some (chain, a) → a ∈ fields.addrs
  | .nil, _, _, _, _, h => by simp [Fields.locate] at h
  | .cons f v tl, 0, rest, chain, a, h => by
    simp only [Fields.locate] at h
    cases hv : v.locate rest with
    | none => simp [hv] at h
    | some r =>
      obtain ⟨ch, b⟩ := r
      simp [hv] at h
      have := locate_mem_addrs_value v rest ch b hv
      simp [Fields.addrs, ← h.2, this]
  | .cons f v tl, i + 1, rest, chain, a, h => by
    have := locate_mem_addrs_fields tl i rest chain a (by simpa [Fields.locate] using h)
    simp [Fields.addrs, this]
end

mutual
/-- A located scalar is found, with the tag built along its chain of enclosing fields. -/
theorem getTagKeyRecursive_hit (tagSpec : String × String) :
    (v : Value) → (path : List Nat) → (chain : List StructField) → (a : Nat) →
      v.allSet = true → v.distinct = true → v.locate path = some (chain, a) → ∀ tag,
      getTagKeyRecursive tagSpec v a tag = .ok (pathFrom tagSpec chain tag, true)
  | .invalid, _, _, _, _, _, h, _ => by simp [Value.locate] at h
  | .scalar none, path, _, _, _, _, h, _ => by cases path <;> simp [Value.locate] at h
  | .scalar (some b), [], chain, a, _, _, h, tag => by
    simp [Value.locate] at h
    obtain ⟨h1, h2⟩ := h
    subst h1 h2
    simp [getTagKeyRecursive, AddrPointer_scalar_some, pathFrom]
  | .scalar (some b), _ :: _, _, _, _, _, h, _ => by simp [Value.locate] at h
  | .ptr _ e, path, chain, a, hs, hd, h, tag => by
    have := getTagKeyRecursive_hit tagSpec e path chain a (by simpa [Value.allSet] using hs)
      (by simpa [Value.distinct] using hd) (by simpa [Value.locate] using h) tag
    simpa [getTagKeyRecursive] using this
  | .struct _ fields, [], _, _, _, _, h, _ => by simp [Value.locate] at h
  | .struct none fields, _ :: _, _, _, hs, _, _, _ => by simp [Value.allSet] at hs
  | .struct (some s) fields, i :: rest, chain, a, hs, hd, h, tag => by
    have hs2 : fields.allSet = true := by
      simp [Value.allSet] at hs; exact hs
    have := getTagKeyFields_hit tagSpec fields i rest chain a hs2
      (by simpa [Value.distinct] using hd) (by simpa [Value.locate] using h) tag
    simp [getTagKeyRecursive, this]
/-- The loop over the fields stops at the field that holds the located scalar. -/
theorem getTagKeyFields_hit (tagSpec : String × String) :
    (fields : Fields) → (i : Nat) → (rest : List Nat) → (chain : List StructField) →
      (a : Nat) → fields.allSet = true → fields.distinct = true →
      fields.locate i rest = some (chain, a) → ∀ tag,
      getTagKeyFields tagSpec fields a tag = .ok (some (pathFrom tagSpec chain tag))
  | .nil, _, _, _, _, _, _, h, _ => by simp [Fields.locate] at h
  | .cons f v tl, 0, rest, chain, a, hs, hd, h, tag => by
    simp only [Fields.locate] at h
    cases hv : v.locate rest with
    | none => simp [hv] at h
    | some r =>
      obtain ⟨ch, b⟩ := r
      simp [hv] at h
      have hs2 : v.allSet = true ∧ tl.allSet = true := by simpa [Fields.allSet] using hs
      have hd2 : v.distinct = true := by
        simp [Fields.distinct] at hd; exact hd.1.1
      have := getTagKeyRecursive_hit tagSpec v rest ch b hs2.1 hd2 hv (buildTag tagSpec f tag)
      rw [← h.1, ← h.2]
      simp [getTagKeyFields, this, pathFrom]
  | .cons f v tl, i + 1, rest, chain, a, hs, hd, h, tag => by
    have hs2 : v.allSet = true ∧ tl.allSet = true := by simpa [Fields.allSet] using hs
    have hl : tl.locate i rest = some (chain, a) := by simpa [Fields.locate] using h
    have hmem := locate_mem_addrs_fields tl i rest chain a hl
    have hd2 : tl.distinct = true ∧ ∀ x ∈ v.addrs, x ∉ tl.addrs := by
      simp [Fields.distinct] at hd
      exact ⟨hd.1.2, hd.2⟩
    have hnot : a ∉ v.addrs := fun hin => hd2.2 a hin hmem
    have hmiss := getTagKeyRecursive_miss tagSpec a v hs2.1 hnot (buildTag tagSpec f tag)
    have := getTagKeyFields_hit tagSpec tl i rest chain a hs2.2 hd2.1 hl tag
    simp [getTagKeyFields, hmiss, this]
end

/-! ## Lemmas on joined paths -/

theorem append_ne_empty (a b : String) (h : a ≠ "") : a ++ b ≠ "" := by
  intro hab
  apply h
  have h1 : (a ++ b).data = [] := by rw [hab]
  rw [String.data_append] at h1
  have h2 : a.data = [] := (List.append_eq_nil.mp h1).1
  exact String.ext h2

theorem stringsJoin_cons_cons (a b : String) (rest : List String) (sep : String) :
    stringsJoin (a :: b :: rest) sep = a ++ sep ++ stringsJoin (b :: rest) sep := rfl

theorem stringsJoin_append_head (a b : String) (rest : List String) (sep : String) :
    stringsJoin ((a ++ sep ++ b) :: rest) sep = stringsJoin (a :: b :: rest) sep := by
  cases rest with
  | nil => simp [stringsJoin]
  | cons c r =>
    rw [stringsJoin_cons_cons, stringsJoin_cons_cons, stringsJoin_cons_cons]
    simp [String.append_assoc]

theorem buildTag_empty (tagSpec : String × String) (field : StructField) :
    buildTag tagSpec field "" = localTag tagSpec field := by
  simp [buildTag, localTag]

theorem buildTag_nonempty (tagSpec : String × String) (field : StructField) (tag : String)
    (h : tag ≠ "") : buildTag tagSpec field tag = tag ++ tagSpec.2 ++ localTag tagSpec field := by
  simp [buildTag, localTag, h]

/-- Below a non-empty tag, the path is the tag and the segments joined by the separator. -/
theorem pathFrom_nonempty (tagSpec : String × String) (chain : List StructField) :
    ∀ tag, tag ≠ "" →
      pathFrom tagSpec chain tag = stringsJoin (tag :: chain.map (localTag tagSpec)) tagSpec.2 := by
  induction chain with
  | nil => intro tag _; simp [pathFrom, stringsJoin]
  | cons f fs ih =>
    intro tag h
    have hne : tag ++ tagSpec.2 ++ localTag tagSpec f ≠ "" := by
      rw [String.append_assoc]; exact append_ne_empty _ _ h
    have := ih (tag ++ tagSpec.2 ++ localTag tagSpec f) hne
    simp only [pathFrom, List.foldl_cons, List.map_cons] at this ⊢
    rw [buildTag_nonempty tagSpec f tag h, this, stringsJoin_append_head]

/-- From the root, the path is the segments joined by the separator, the leading empty
segments being dropped. -/
theorem pathFrom_root (tagSpec : String × String) (chain : List StructField) :
    pathFrom tagSpec chain "" =
      stringsJoin ((chain.map (localTag tagSpec)).dropWhile (fun seg => seg == "")) tagSpec.2 := by
  induction chain with
  | nil => simp [pathFrom, stringsJoin]
  | cons f fs ih =>
    by_cases h : localTag tagSpec f = ""
    · simp only [pathFrom, List.foldl_cons, List.map_cons] at ih ⊢
      rw [buildTag_empty, h, ih]
      simp [List.dropWhile]
    · have := pathFrom_nonempty tagSpec fs (localTag tagSpec f) h
      simp only [pathFrom, List.foldl_cons, List.map_cons] at this ⊢
      rw [buildTag_empty, this]
      have hb : (localTag tagSpec f == "") = false := by simpa using h
      simp [List.dropWhile_cons, hb]

theorem firstCommaSegment_options (x opts : String) (h : ',' ∉ x.data) :
    firstCommaSegment (x ++ "," ++ opts) = x := by
  have hx : x.data.takeWhile (fun ch => ch != ',') = x.data := by
    rw [List.takeWhile_eq_self_iff]
    intro ch hch
    have : ch ≠ ',' := fun hc => h (hc ▸ hch)
    simpa using this
  have hd : (x ++ "," ++ opts).data = x.data ++ (',' :: opts.data) := by
    simp [String.data_append]
  apply String.ext
  show ((x ++ "," ++ opts).data.takeWhile (fun ch => ch != ',')) = x.data
  rw [hd, List.takeWhile_append]
  simp [hx]

/-! ## Claims on tag-path resolution -/

/-- C2, as amended: for every naming scheme and every root whose pointers are all set and
whose sibling fields occupy distinct addresses, `GetTagKey` on the address of a scalar field
returns, with `found = true`, the first comma-segments of the tags along the chain of
enclosing fields, leading empty segments dropped, joined by the separator; for a top-level
field with segment `x` that is `x`, and for a field with segment `b` inside a top-level field
with non-empty segment `a` it is `a + separator + b`; the text after the first comma of a
tag is ignored. -/
theorem C2_GetTagKey_path (tagSpec : String × String) (config : Value) (path : List Nat)
    (chain : List StructField) (a : Nat) (typ : String)
    (hset : config.allSet = true) (hdist : config.distinct = true)
    (hloc : config.locate path = some (chain, a)) :
    GetTagKey tagSpec config (.pointer typ .Scalar a) =
        .ok (stringsJoin ((chain.map (localTag tagSpec)).dropWhile (fun seg => seg == ""))
          tagSpec.2, true)
      ∧ (∀ fx, chain = [fx] →
          GetTagKey tagSpec config (.pointer typ .Scalar a) = .ok (localTag tagSpec fx, true))
      ∧ (∀ fa fb, chain = [fa, fb] → localTag tagSpec fa ≠ "" →
          GetTagKey tagSpec config (.pointer typ .Scalar a) =
            .ok (localTag tagSpec fa ++ tagSpec.2 ++ localTag tagSpec fb, true))
      ∧ (∀ (f : StructField) (x opts : String), ',' ∉ x.data →
          f.tagGet tagSpec.1 = x ++ "," ++ opts → localTag tagSpec f = x) := by
  have hres : GetTagKey tagSpec config (.pointer typ .Scalar a) =
      .ok (pathFrom tagSpec chain "", true) := by
    simp [GetTagKey, getTagKeyRecursive_hit tagSpec config path chain a hset hdist hloc ""]
  refine ⟨?_, ?_, ?_, ?_⟩
  · rw [hres, pathFrom_root]
  · intro fx hc
    rw [hres, hc]
    simp [pathFrom, buildTag_empty]
  · intro fa fb hc hne
    rw [hres, hc]
    simp [pathFrom, buildTag_empty, buildTag_nonempty tagSpec fb _ hne]
  · intro f x opts hx hf
    simp [localTag, hf, firstCommaSegment_options x opts hx]

/-- C2, instance: in the example root the field `B` of the structure field tagged `a`
resolves to `a.b`. -/
theorem C2_GetTagKey_path_witness :
    GetTagKey yamlSpec exampleRoot (strPtr 116) = .ok ("a.b", true) :=
  (C2_GetTagKey_path yamlSpec exampleRoot [1, 0] [yamlField "A" "a", yamlField "B" "b"] 116
    "*string" (by decide) (by decide) (by decide)).2.2.1 (yamlField "A" "a") (yamlField "B" "b")
    rfl (by decide)

/-- C2, as stated, fails: in the example root the field `B` inside the untagged structure
field `U` has the chain of segments `""`, `b`, which joined by the separator is `.b`, and
`GetTagKey` returns `b`. -/
theorem C2_counterexample :
    exampleRoot.allSet = true ∧ exampleRoot.distinct = true
      ∧ exampleRoot.locate [2, 0] = some ([plainField "U", yamlField "B" "b"], 132)
      ∧ GetTagKey yamlSpec exampleRoot (strPtr 132) = .ok ("b", true)
      ∧ GetTagKey yamlSpec exampleRoot (strPtr 132) ≠
          .ok (stringsJoin ([plainField "U", yamlField "B" "b"].map (localTag yamlSpec))
            yamlSpec.2, true) := by
  decide

/-- C3, failing input: with the pointer field `P` left nil, looking up an address that is
the address of no value reachable from the root panics instead of returning
`("", false)`. -/
theorem C3_nil_pointer_panics :
    900 ∉ nilRoot.addrs
      ∧ GetTagKey yamlSpec nilRoot (strPtr 900) =
          .error "reflect.Value.Addr of unaddressable value" := by
  decide

/-- The example checker is what `NewYamlChecker` builds over the example root. -/
theorem NewYamlChecker_exampleRoot :
    (NewYamlChecker exampleRoot).toOption.map (fun c => (c.config, c.tagSpec, c.verifiers.length))
      = some (exampleChecker.config, exampleChecker.tagSpec, 0) := rfl

/-! ## Claims on aggregate evaluation -/

theorem verify_of_pass (v : Verifier) (m : Mem) (h : v.cond.Evaluate m = true) :
    v.verify m = .ok (true, []) := by
  simp [Verifier.verify, h]

theorem verify_of_fail (v : Verifier) (m : Mem) (d : String) (h : v.cond.Evaluate m = false)
    (hd : v.cond.Desc m = .ok d) : v.verify m = .ok (false, [d]) := by
  simp [Verifier.verify, h, hd]

/-- A verifier passes, that is `verify` returns `(true, nil)`, exactly when its condition
evaluates to true. -/
theorem verify_pass_iff (v : Verifier) (m : Mem) :
    v.verify m = .ok (true, []) ↔ v.cond.Evaluate m = true := by
  constructor
  · intro h
    by_contra hne
    have hf : v.cond.Evaluate m = false := by simpa using hne
    cases hd : v.cond.Desc m with
    | error e => simp [Verifier.verify, hf, hd] at h
    | ok d => simp [Verifier.verify, hf, hd] at h
  · exact verify_of_pass v m

/-- The loop of `Verify` visits every verifier: it ends with `ok` lowered when one fails and
with the descriptions of all the failing ones appended in order. -/
theorem verifyLoop_eq (m : Mem) (verifiers : List Verifier) :
    ∀ (msgs : List String) (ok : Bool) (errs : List String),
      List.Forall₂ (fun v d => v.cond.Desc m = .ok d) (failing verifiers m) msgs →
      verifyLoop verifiers m ok errs = .ok (ok && msgs.isEmpty, errs ++ msgs) := by
  induction verifiers with
  | nil =>
    intro msgs ok errs h
    simp [failing] at h
    simp [verifyLoop, h]
  | cons v vs ih =>
    intro msgs ok errs h
    by_cases hv : v.cond.Evaluate m = true
    · have hf : failing (v :: vs) m = failing vs m := by simp [failing, hv]
      rw [hf] at h
      simp [verifyLoop, verify_of_pass v m hv, ih msgs ok errs h]
    · have hv2 : v.cond.Evaluate m = false := by simpa using hv
      have hf : failing (v :: vs) m = v :: failing vs m := by simp [failing, hv2]
      rw [hf] at h
      cases h with
      | cons hd htl =>
        rename_i d ds
        simp [verifyLoop, verify_of_fail v m d hv2 hd, ih ds false (errs ++ [d]) htl]

/-- C1: `Verify` evaluates every registered verifier. When the descriptions of the failing
verifiers are `msgs`, in registration order, it returns `(true, [])` if every verifier
evaluates to true and `(false, msgs)` otherwise; the boolean is true exactly when the
message list is empty, which is exactly when no verifier fails. -/
theorem C1_Verify_collects_all (c : Checker) (m : Mem) (msgs : List String)
    (hdesc : List.Forall₂ (fun v d => v.cond.Desc m = .ok d) (failing c.verifiers m) msgs) :
    c.Verify m = .ok (msgs.isEmpty, msgs)
      ∧ (msgs = [] ↔ ∀ v ∈ c.verifiers, v.cond.Evaluate m = true)
      ∧ ((∀ v ∈ c.verifiers, v.cond.Evaluate m = true) → c.Verify m = .ok (true, []))
      ∧ ((∃ v ∈ c.verifiers, v.cond.Evaluate m = false) → c.Verify m = .ok (false, msgs)) := by
  have hlen : msgs = [] ↔ failing c.verifiers m = [] := by
    constructor
    · intro h; rw [h] at hdesc; exact List.forall₂_nil_right_iff.mp hdesc
    · intro h; rw [h] at hdesc; exact List.forall₂_nil_left_iff.mp hdesc
  have hall : failing c.verifiers m = [] ↔ ∀ v ∈ c.verifiers, v.cond.Evaluate m = true := by
    simp [failing, List.filter_eq_nil_iff]
  have hver : c.Verify m = .ok (msgs.isEmpty, msgs) := by
    simp only [Checker.Verify, verifyLoop_eq m c.verifiers msgs true [] hdesc]
    cases msgs <;> simp
  refine ⟨hver, hlen.trans hall, ?_, ?_⟩
  · intro h
    have : msgs = [] := (hlen.trans hall).mpr h
    rw [hver, this]; rfl
  · intro ⟨v, hv, hf⟩
    have : msgs ≠ [] := by
      intro h
      have := (hlen.trans hall).mp h v hv
      rw [hf] at this; cases this
    rw [hver]
    cases msgs with
    | nil => exact absurd rfl this
    | cons d ds => rfl

/-- C1, instance: two violated mandatory rules, registered on the fields `x` and then `a.b`
of the example root, give `false` and the two messages in registration order. -/
theorem C1_Verify_collects_all_witness :
    ((exampleChecker.StringMandatory 100).StringMandatory 116).Verify blankMem =
      .ok (false, ["x is mandatory", "a.b is mandatory"]) :=
  (C1_Verify_collects_all ((exampleChecker.StringMandatory 100).StringMandatory 116) blankMem
    ["x is mandatory", "a.b is mandatory"]
    (List.Forall₂.cons (by decide) (List.Forall₂.cons (by decide) List.Forall₂.nil))).1

/-! ## Claims on the rules -/

theorem containsValue_iff (values : List String) (entry : String) :
    containsValue values entry = true ↔ entry ∈ values := by
  induction values with
  | nil => simp [containsValue]
  | cons value rest ih =>
    by_cases h : value = entry
    · simp [containsValue, h]
    · have h2 : ¬ entry = value := fun h3 => h h3.symm
      simp [containsValue, h, h2, ih]

/-- C4: the verifier registered by `StringXor(a, b)` passes exactly when one of the two
strings is empty and the other is not; it fails when both are empty and when both are
non-empty. -/
theorem C4_StringXor_exactly_one (c : Checker) (a b : Nat) :
    ∃ v, (c.StringXor a b).verifiers = c.verifiers ++ [v] ∧ ∀ m : Mem,
      (v.verify m = .ok (true, []) ↔
          ((m.str a ≠ "" ∧ m.str b = "") ∨ (m.str a = "" ∧ m.str b ≠ "")))
        ∧ (m.str a = "" → m.str b = "" → v.cond.Evaluate m = false)
        ∧ (m.str a ≠ "" → m.str b ≠ "" → v.cond.Evaluate m = false) := by
  refine ⟨_, rfl, fun m => ⟨?_, ?_, ?_⟩⟩
  · rw [verify_pass_iff]
    by_cases ha : m.str a = "" <;> by_cases hb : m.str b = "" <;>
      simp [Condition.Evaluate, ha, hb]
  · intro ha hb
    simp [Condition.Evaluate, ha, hb]
  · intro ha hb
    simp [Condition.Evaluate, ha, hb]

/-- C5: the verifier registered by `EnumMandatory(f, values)` passes exactly when `f` is
non-empty and is an element of `values`; it fails on the empty value, also when the empty
string is listed, and on every value outside `values`. -/
theorem C5_EnumMandatory_nonempty_member (c : Checker) (f : Nat) (values : List String) :
    ∃ v, (c.EnumMandatory f values).verifiers = c.verifiers ++ [v] ∧ ∀ m : Mem,
      (v.verify m = .ok (true, []) ↔ (m.str f ≠ "" ∧ m.str f ∈ values))
        ∧ (m.str f = "" → v.cond.Evaluate m = false)
        ∧ (m.str f ∉ values → v.cond.Evaluate m = false) := by
  refine ⟨_, rfl, fun m => ⟨?_, ?_, ?_⟩⟩
  · rw [verify_pass_iff]
    by_cases hf : m.str f = ""
    · simp [Condition.Evaluate, And, splitConds, andEvaluate, Checker.enumValueCondition, hf]
    · simp [Condition.Evaluate, And, splitConds, andEvaluate, Checker.enumValueCondition, hf,
        containsValue_iff]
  · intro hf
    simp [Condition.Evaluate, And, splitConds, andEvaluate, hf]
  · intro hf
    by_cases he : m.str f = ""
    · simp [Condition.Evaluate, And, splitConds, andEvaluate, he]
    · have hc : containsValue values (m.str f) = false := by
        cases hcv : containsValue values (m.str f) with
        | false => rfl
        | true => exact absurd ((containsValue_iff values (m.str f)).mp hcv) hf
      simp [Condition.Evaluate, And, splitConds, andEvaluate, Checker.enumValueCondition, he, hc]

/-- C6, as amended: the verifier registered by `EnumMandatoryWhen(f, values, cond)` passes
exactly when `f` is non-empty and an element of `values`, or `f` is empty and `cond`
evaluates to false. When `cond` evaluates to true this is the `EnumMandatory` rule; when
`cond` evaluates to false it passes exactly for the empty value and the values in
`values`. -/
theorem C6_EnumMandatoryWhen_gates_emptiness (c : Checker) (f : Nat) (values : List String)
    (cond : Condition) :
    ∃ v, (c.EnumMandatoryWhen f values cond).verifiers = c.verifiers ++ [v] ∧ ∀ m : Mem,
      (v.verify m = .ok (true, []) ↔
          ((m.str f ≠ "" ∧ m.str f ∈ values) ∨ (m.str f = "" ∧ cond.Evaluate m = false)))
        ∧ (cond.Evaluate m = true →
            (v.verify m = .ok (true, []) ↔ (m.str f ≠ "" ∧ m.str f ∈ values)))
        ∧ (cond.Evaluate m = false →
            (v.verify m = .ok (true, []) ↔ (m.str f = "" ∨ m.str f ∈ values))) := by
  have key : ∀ m : Mem,
      (And [{ desc := c.describeWhen (c.describeMandatory (strPtr f)) cond
              evaluate := c.evaluateStringMandatoryWhen f cond },
            c.enumValueCondition f values]).Evaluate m = true ↔
        ((m.str f ≠ "" ∧ m.str f ∈ values) ∨ (m.str f = "" ∧ cond.Evaluate m = false)) := by
    intro m
    by_cases hf : m.str f = ""
    · simp [Condition.Evaluate, And, splitConds, andEvaluate, Checker.enumValueCondition,
        Checker.evaluateStringMandatoryWhen, hf]
    · simp [Condition.Evaluate, And, splitConds, andEvaluate, Checker.enumValueCondition,
        Checker.evaluateStringMandatoryWhen, hf, containsValue_iff]
  refine ⟨_, rfl, fun m => ⟨?_, ?_, ?_⟩⟩
  · rw [verify_pass_iff]; exact key m
  · intro hc
    rw [verify_pass_iff]
    refine (key m).trans ?_
    simp [hc]
  · intro hc
    rw [verify_pass_iff]
    refine (key m).trans ?_
    by_cases hf : m.str f = "" <;> simp [hc, hf]

/-- C6, as stated, fails: with a condition that evaluates to false and the field holding
`zzz`, a value outside `values`, the rule does not pass. -/
theorem C6_counterexample :
    neverCond.Evaluate zzzMem = false
      ∧ (exampleChecker.EnumMandatoryWhen 100 ["a", "b"] neverCond).Verify zzzMem =
          .ok (false, ["x is mandatory when never and value of x must be in [a b]"]) := by
  decide

/-- C7: the verifier registered by `StringXorWhen(a, b, cond)` passes exactly when `cond`
evaluates to false or exactly one of the two strings is non-empty. -/
theorem C7_StringXorWhen_gated (c : Checker) (a b : Nat) (cond : Condition) :
    ∃ v, (c.StringXorWhen a b cond).verifiers = c.verifiers ++ [v] ∧ ∀ m : Mem,
      (v.verify m = .ok (true, []) ↔
        (cond.Evaluate m = false
          ∨ ((m.str a ≠ "" ∧ m.str b = "") ∨ (m.str a = "" ∧ m.str b ≠ "")))) := by
  refine ⟨_, rfl, fun m => ?_⟩
  rw [verify_pass_iff]
  by_cases ha : m.str a = "" <;> by_cases hb : m.str b = "" <;>
    cases hc : cond.Evaluate m <;>
    simp [Condition.Evaluate, Checker.evaluateStringXorWhen, ha, hb] <;>
    simpa [Condition.Evaluate] using hc

/-- C8: the verifier registered by `EnumOptional(f, values, def)` passes exactly when `f` is
empty or an element of `values`; the checker obtained is the same for every `def`, and the
call hands the memory back unchanged. -/
theorem C8_EnumOptional_ignores_default (c : Checker) (f : Nat) (values : List String)
    (dflt : String) (m0 : Mem) :
    (∃ v, (c.EnumOptional f values dflt m0).1.verifiers = c.verifiers ++ [v] ∧ ∀ m : Mem,
        (v.verify m = .ok (true, []) ↔ (m.str f = "" ∨ m.str f ∈ values)))
      ∧ (∀ other : String,
          (c.EnumOptional f values other m0).1.verifiers =
            (c.EnumOptional f values dflt m0).1.verifiers)
      ∧ (c.EnumOptional f values dflt m0).2 = m0
      ∧ (c.EnumOptional f values dflt m0).2.str f = m0.str f := by
  refine ⟨⟨_, rfl, fun m => ?_⟩, fun _ => rfl, rfl, rfl⟩
  rw [verify_pass_iff]
  by_cases hf : m.str f = ""
  · simp [Condition.Evaluate, Checker.enumValueCondition, hf]
  · simp [Condition.Evaluate, Checker.enumValueCondition, hf, containsValue_iff]

/-- C9: the verifier registered by `IntMandatory(f)` fails exactly when `f` holds
`IntUndefined`, which is `-1`, and passes for every other integer, 0 included. -/
theorem C9_IntMandatory_sentinel (c : Checker) (f : Nat) :
    IntUndefined = -1
      ∧ ∃ v, (c.IntMandatory f).verifiers = c.verifiers ++ [v] ∧ ∀ m : Mem,
        (v.cond.Evaluate m = false ↔ m.int f = IntUndefined)
          ∧ (v.verify m = .ok (true, []) ↔ m.int f ≠ -1)
          ∧ (m.int f = 0 → v.verify m = .ok (true, [])) := by
  refine ⟨rfl, _, rfl, fun m => ⟨?_, ?_, ?_⟩⟩
  · simp [Condition.Evaluate]
  · rw [verify_pass_iff]
    simp [Condition.Evaluate, IntUndefined]
  · intro h0
    rw [verify_pass_iff]
    simp [Condition.Evaluate, IntUndefined, h0]

/-- C10: when the string field `f` resolves to the tag path `p`, a checker holding only
`StringMandatory(f)` verifies to `(true, [])` if `f` is non-empty, and to `(false, [m])`
with `m` the path `p` followed by " is mandatory" if `f` is empty. -/
theorem C10_StringMandatory_message (c : Checker) (f : Nat) (p : String) (m : Mem)
    (hnone : c.verifiers = [])
    (hres : c.GetTagKey (strPtr f) = .ok (p, true)) :
    (m.str f ≠ "" → (c.StringMandatory f).Verify m = .ok (true, []))
      ∧ (m.str f = "" → (c.StringMandatory f).Verify m = .ok (false, [p ++ " is mandatory"])) := by
  have hv : (c.StringMandatory f).verifiers =
      [{ cond := { desc := c.describeMandatory (strPtr f)
                   evaluate := fun m => m.str f != "" } }] := by
    simp [Checker.StringMandatory, Checker.StringCondition, Checker.AddCondition,
      Checker.addVerifier, hnone]
  have hd : c.describeMandatory (strPtr f) m = .ok (p ++ " is mandatory") := by
    have : c.tagKeyOrValue (strPtr f) = .ok p := by
      simp only [Checker.GetTagKey] at hres
      simp [Checker.tagKeyOrValue, hres]
    simp [Checker.describeMandatory, this, bind, Except.bind, pure, Except.pure]
  constructor
  · intro hf
    simp [Checker.Verify, hv, verifyLoop, Verifier.verify, Condition.Evaluate, hf]
  · intro hf
    simp [Checker.Verify, hv, verifyLoop, Verifier.verify, Condition.Evaluate, Condition.Desc,
      hf, hd]

/-- C10, instance: the field `B` of the example root, at address 116, resolves to `a.b`;
left empty, the only rule fails with the message `a.b is mandatory`. -/
theorem C10_StringMandatory_message_witness :
    (exampleChecker.StringMandatory 116).Verify blankMem = .ok (false, ["a.b is mandatory"]) :=
  (C10_StringMandatory_message exampleChecker 116 "a.b" blankMem rfl (by decide)).2 rfl

/-! ## Claims on the conditional rules and on patterns -/

/-- C11: the verifier registered by `StringMandatoryWhen(f, cond)` passes exactly when `f`
is non-empty or `cond` evaluates to false, and the one registered by
`IntMandatoryWhen(g, cond)` exactly when `g` differs from `IntUndefined` or `cond`
evaluates to false; in both cases the description is the description of the unconditional
rule, `StringMandatory(f)` or `IntMandatory(g)`, followed by " when " and the description
of `cond`, and that is the message of a failing run. -/
theorem C11_MandatoryWhen_gated (c : Checker) (f g : Nat) (cond : Condition) :
    (∃ u v, (c.StringMandatory f).verifiers = c.verifiers ++ [u]
        ∧ (c.StringMandatoryWhen f cond).verifiers = c.verifiers ++ [v]
        ∧ ∀ m : Mem,
          (v.verify m = .ok (true, []) ↔ (m.str f ≠ "" ∨ cond.Evaluate m = false))
            ∧ ∀ d w, u.cond.Desc m = .ok d → cond.Desc m = .ok w →
                v.cond.Desc m = .ok (d ++ " when " ++ w)
                  ∧ (m.str f = "" → cond.Evaluate m = true →
                      v.verify m = .ok (false, [d ++ " when " ++ w])))
      ∧ (∃ u v, (c.IntMandatory g).verifiers = c.verifiers ++ [u]
        ∧ (c.IntMandatoryWhen g cond).verifiers = c.verifiers ++ [v]
        ∧ ∀ m : Mem,
          (v.verify m = .ok (true, []) ↔ (m.int g ≠ IntUndefined ∨ cond.Evaluate m = false))
            ∧ ∀ d w, u.cond.Desc m = .ok d → cond.Desc m = .ok w →
                v.cond.Desc m = .ok (d ++ " when " ++ w)
                  ∧ (m.int g = IntUndefined → cond.Evaluate m = true →
                      v.verify m = .ok (false, [d ++ " when " ++ w]))) := by
  constructor
  · refine ⟨_, _, rfl, rfl, fun m => ⟨?_, ?_⟩⟩
    · rw [verify_pass_iff]
      by_cases hf : m.str f = "" <;>
        simp [Condition.Evaluate, Checker.evaluateStringMandatoryWhen, hf]
    · intro d w hd hw
      have hdesc : c.describeWhen (c.describeMandatory (strPtr f)) cond m =
          .ok (d ++ " when " ++ w) := by
        have hd2 : c.describeMandatory (strPtr f) m = .ok d := hd
        simp [Checker.describeWhen, hd2, hw, bind, Except.bind, pure, Except.pure]
      refine ⟨hdesc, fun hf hc => ?_⟩
      apply verify_of_fail
      · have hc2 : cond.evaluate m = true := hc
        simp [Condition.Evaluate, Checker.evaluateStringMandatoryWhen, hf, hc2]
      · exact hdesc
  · refine ⟨_, _, rfl, rfl, fun m => ⟨?_, ?_⟩⟩
    · rw [verify_pass_iff]
      by_cases hg : m.int g = IntUndefined <;> simp [Condition.Evaluate, hg]
    · intro d w hd hw
      have hdesc : c.describeWhen (c.describeMandatory (intPtr g)) cond m =
          .ok (d ++ " when " ++ w) := by
        have hd2 : c.describeMandatory (intPtr g) m = .ok d := hd
        simp [Checker.describeWhen, hd2, hw, bind, Except.bind, pure, Except.pure]
      refine ⟨hdesc, fun hg hc => ?_⟩
      apply verify_of_fail
      · have hc2 : cond.evaluate m = true := hc
        simp [Condition.Evaluate, hg, hc2]
      · exact hdesc

/-- C12: when the pattern does not compile, `StringPattern` returns the error and leaves the
checker as it was, so that `Verify` returns what it returned before the call; when the
pattern compiles, `StringPattern` returns no error and appends exactly one verifier, which
passes exactly when the compiled expression matches the value of the field. -/
theorem C12_StringPattern_registers_iff_compiles
    (compile : String → Except String (String → Bool)) (c : Checker) (entry : Nat)
    (pattern : String) :
    (∀ err, compile pattern = .error err →
        (c.StringPattern compile entry pattern).2 = some err
          ∧ (c.StringPattern compile entry pattern).1.verifiers = c.verifiers
          ∧ ∀ m : Mem, (c.StringPattern compile entry pattern).1.Verify m = c.Verify m)
      ∧ (∀ regex, compile pattern = .ok regex →
        (c.StringPattern compile entry pattern).2 = none
          ∧ ∃ v, (c.StringPattern compile entry pattern).1.verifiers = c.verifiers ++ [v]
            ∧ ∀ m : Mem, (v.verify m = .ok (true, []) ↔ regex (m.str entry) = true)) := by
  constructor
  · intro err h
    simp [Checker.StringPattern, h]
  · intro regex h
    have hsp : c.StringPattern compile entry pattern =
        (c.StringCondition (fun m => regex (m.str entry))
          (fun _ => do
            let tag ← c.tagKeyOrValue (strPtr entry)
            pure (tag ++ " must match pattern " ++ pattern)), none) := by
      simp [Checker.StringPattern, h]
    rw [hsp]
    refine ⟨rfl, _, rfl, fun m => ?_⟩
    rw [verify_pass_iff]
    simp [Condition.Evaluate]

/-- C12, instance: on the example checker holding the rule `StringMandatory` for the field
`x`, a pattern that does not compile returns its error and `Verify` still reports that one
rule only. -/
theorem C12_StringPattern_registers_iff_compiles_witness :
    ((exampleChecker.StringMandatory 100).StringPattern exampleCompile 116 "(").2 =
        some "error parsing regexp: missing closing )"
      ∧ ((exampleChecker.StringMandatory 100).StringPattern exampleCompile 116 "(").1.Verify
          blankMem = .ok (false, ["x is mandatory"]) :=
  have h := (C12_StringPattern_registers_iff_compiles exampleCompile
    (exampleChecker.StringMandatory 100) 116 "(").1 "error parsing regexp: missing closing )"
    (by simp [exampleCompile])
  ⟨h.1, (h.2.2 blankMem).trans (by decide)⟩

/-! ## Claims on the condition algebra -/

theorem orEvaluate_eq_any (conds : List Condition) (m : Mem) :
    orEvaluate (splitConds conds).2 m = conds.any (fun c => c.Evaluate m) := by
  induction conds with
  | nil => simp [splitConds, orEvaluate]
  | cons c cs ih =>
    simp only [splitConds, List.map_cons, orEvaluate, List.any_cons] at ih ⊢
    by_cases hc : c.Evaluate m = true
    · simp [hc]
    · simp [hc, ih]

theorem andEvaluate_eq_all (conds : List Condition) (m : Mem) :
    andEvaluate (splitConds conds).2 m = conds.all (fun c => c.Evaluate m) := by
  induction conds with
  | nil => simp [splitConds, andEvaluate]
  | cons c cs ih =>
    simp only [splitConds, List.map_cons, andEvaluate, List.all_cons] at ih ⊢
    by_cases hc : c.Evaluate m = true
    · simp [hc, ih]
    · simp [hc]

theorem orEvaluateCalls_eq (conds : List Condition) (m : Mem) :
    orEvaluateCalls (splitConds conds).2 m =
      (conds.any (fun c => c.Evaluate m),
        (conds.takeWhile (fun c => !c.Evaluate m)).length
          + (if conds.any (fun c => c.Evaluate m) then 1 else 0)) := by
  induction conds with
  | nil => simp [splitConds, orEvaluateCalls]
  | cons c cs ih =>
    simp only [splitConds, List.map_cons, orEvaluateCalls, List.any_cons] at ih ⊢
    by_cases hc : c.Evaluate m = true
    · simp [List.takeWhile_cons, hc]
    · simp [ih, List.takeWhile_cons, hc]; omega

theorem andEvaluateCalls_eq (conds : List Condition) (m : Mem) :
    andEvaluateCalls (splitConds conds).2 m =
      (conds.all (fun c => c.Evaluate m),
        (conds.takeWhile (fun c => c.Evaluate m)).length
          + (if conds.all (fun c => c.Evaluate m) then 0 else 1)) := by
  induction conds with
  | nil => simp [splitConds, andEvaluateCalls]
  | cons c cs ih =>
    simp only [splitConds, List.map_cons, andEvaluateCalls, List.all_cons] at ih ⊢
    by_cases hc : c.Evaluate m = true
    · simp [ih, List.takeWhile_cons, hc]; omega
    · simp [List.takeWhile_cons, hc]

/-- C13: `Or(c1..cn).Evaluate()` is the disjunction of the evaluations, false for the empty
list, and `And(c1..cn).Evaluate()` is their conjunction, true for the empty list. The loops
call the conditions in order and stop at the first that decides: the calls made by `Or` are
the leading conditions that evaluate to false and, if there is one, the first that evaluates
to true; the calls made by `And` are the leading conditions that evaluate to true and, if
there is one, the first that evaluates to false. -/
theorem C13_Or_And_evaluate (conds : List Condition) (m : Mem) :
    (Or conds).Evaluate m = conds.any (fun c => c.Evaluate m)
      ∧ (And conds).Evaluate m = conds.all (fun c => c.Evaluate m)
      ∧ (Or []).Evaluate m = false
      ∧ (And []).Evaluate m = true
      ∧ orEvaluateCalls (splitConds conds).2 m =
          ((Or conds).Evaluate m,
            (conds.takeWhile (fun c => !c.Evaluate m)).length
              + (if conds.any (fun c => c.Evaluate m) then 1 else 0))
      ∧ andEvaluateCalls (splitConds conds).2 m =
          ((And conds).Evaluate m,
            (conds.takeWhile (fun c => c.Evaluate m)).length
              + (if conds.all (fun c => c.Evaluate m) then 0 else 1)) := by
  have hor : (Or conds).Evaluate m = conds.any (fun c => c.Evaluate m) :=
    orEvaluate_eq_any conds m
  have hand : (And conds).Evaluate m = conds.all (fun c => c.Evaluate m) :=
    andEvaluate_eq_all conds m
  refine ⟨hor, hand, rfl, rfl, ?_, ?_⟩
  · rw [hor]; exact orEvaluateCalls_eq conds m
  · rw [hand]; exact andEvaluateCalls_eq conds m

theorem evalDescs_of_forall₂ (m : Mem) (conds : List Condition) :
    ∀ ds : List String, List.Forall₂ (fun c d => c.Desc m = .ok d) conds ds →
      evalDescs (conds.map (fun cond => cond.Desc)) m = .ok ds := by
  induction conds with
  | nil =>
    intro ds h
    rw [List.forall₂_nil_left_iff.mp h]
    simp [evalDescs]
  | cons c cs ih =>
    intro ds h
    cases h with
    | cons hd htl =>
      rename_i d rest
      simp [evalDescs, hd, ih rest htl]

/-- C14: when the descriptions of `c1..cn` are `ds`, in order, the description of
`Or(c1..cn)` is `ds` joined with " or " and the description of `And(c1..cn)` is `ds`
joined with " and "; every sub-description is in it, and conditions with the same
descriptions have the same joined description whatever they evaluate to. -/
theorem C14_Or_And_description (conds : List Condition) (m : Mem) (ds : List String)
    (hdesc : List.Forall₂ (fun c d => c.Desc m = .ok d) conds ds) :
    (Or conds).Desc m = .ok (stringsJoin ds " or ")
      ∧ (And conds).Desc m = .ok (stringsJoin ds " and ")
      ∧ ∀ others : List Condition,
          others.map (fun c => c.desc) = conds.map (fun c => c.desc) →
          (Or others).Desc m = .ok (stringsJoin ds " or ")
            ∧ (And others).Desc m = .ok (stringsJoin ds " and ") := by
  have h := evalDescs_of_forall₂ m conds ds hdesc
  have hor : ∀ l : List Condition, evalDescs (l.map (fun cond => cond.Desc)) m = .ok ds →
      (Or l).Desc m = .ok (stringsJoin ds " or ") := by
    intro l hl
    simp only [Or, Condition.Desc, splitConds] at hl ⊢
    simp [hl]
  have hand : ∀ l : List Condition, evalDescs (l.map (fun cond => cond.Desc)) m = .ok ds →
      (And l).Desc m = .ok (stringsJoin ds " and ") := by
    intro l hl
    simp only [And, Condition.Desc, splitConds] at hl ⊢
    simp [hl]
  refine ⟨hor conds h, hand conds h, fun others ho => ?_⟩
  have hmap : others.map (fun cond => cond.Desc) = conds.map (fun cond => cond.Desc) := ho
  exact ⟨hor others (hmap ▸ h), hand others (hmap ▸ h)⟩

/-- C14, instance: the description of `Or` over "the field `x` is not empty" and a condition
described as `never` names both. -/
theorem C14_Or_And_description_witness :
    (Or [exampleChecker.StringNotEmpty 100, neverCond]).Desc blankMem =
      .ok "x is not empty or never" :=
  (C14_Or_And_description [exampleChecker.StringNotEmpty 100, neverCond] blankMem
    ["x is not empty", "never"]
    (List.Forall₂.cons (by decide) (List.Forall₂.cons (by decide) List.Forall₂.nil))).1

/-! ## Claims on the fallback of the messages -/

/-- C15, failing input: a rule registered on a string variable that is no field of the
root, holding `hello`, fails with a message that names the entry by the pointer in the
bad-verb form of `fmt`, here `%!s(*string=0x384)`; the value `hello` is nowhere in the
message. -/
theorem C15_fallback_prints_pointer :
    GetTagKey yamlSpec exampleRoot (strPtr 900) = .ok ("", false)
      ∧ localMem.str 900 = "hello"
      ∧ exampleChecker.tagKeyOrValue (strPtr 900) =
          .ok " entry holding value %!s(*string=0x384)"
      ∧ (exampleChecker.EnumMandatory 900 ["a", "b"]).Verify localMem =
          .ok (false, [" entry holding value %!s(*string=0x384) is mandatory and value of"
            ++ "  entry holding value %!s(*string=0x384) must be in [a b]"])
      ∧ ¬ ("hello".data <:+:
            (" entry holding value %!s(*string=0x384) is mandatory and value of"
              ++ "  entry holding value %!s(*string=0x384) must be in [a b]").data) := by
  refine ⟨by decide, by decide, by decide, by decide, ?_⟩
  set_option maxRecDepth 20000 in decide

/-! ## Claims on the default helpers -/

/-- C16: after `SetDefaultString`, `SetDefaultInt`, `SetDefaultUInt16`, `SetDefaultUint` or
`SetDefaultDuration` the field holds the default if it held the zero value of its type (the
empty string or 0), and its former value otherwise; every other cell is left as it was. -/
theorem C16_SetDefault_overwrites_zero_only (entry : Nat) (m : Mem) :
    (∀ d : String,
        (SetDefaultString entry d m).str entry = (if m.str entry = "" then d else m.str entry)
          ∧ ∀ other, other ≠ entry → (SetDefaultString entry d m).str other = m.str other)
      ∧ (∀ d : Int,
        (SetDefaultInt entry d m).int entry = (if m.int entry = 0 then d else m.int entry)
          ∧ ∀ other, other ≠ entry → (SetDefaultInt entry d m).int other = m.int other)
      ∧ (∀ d : Nat,
        (SetDefaultUInt16 entry d m).uint16 entry =
            (if m.uint16 entry = 0 then d else m.uint16 entry)
          ∧ ∀ other, other ≠ entry → (SetDefaultUInt16 entry d m).uint16 other = m.uint16 other)
      ∧ (∀ d : Nat,
        (SetDefaultUint entry d m).uint entry = (if m.uint entry = 0 then d else m.uint entry)
          ∧ ∀ other, other ≠ entry → (SetDefaultUint entry d m).uint other = m.uint other)
      ∧ (∀ d : Int,
        (SetDefaultDuration entry d m).duration entry =
            (if m.duration entry = 0 then d else m.duration entry)
          ∧ ∀ other, other ≠ entry →
              (SetDefaultDuration entry d m).duration other = m.duration other) := by
  refine ⟨fun d => ⟨?_, fun other ho => ?_⟩, fun d => ⟨?_, fun other ho => ?_⟩,
    fun d => ⟨?_, fun other ho => ?_⟩, fun d => ⟨?_, fun other ho => ?_⟩,
    fun d => ⟨?_, fun other ho => ?_⟩⟩
  · by_cases h : m.str entry = "" <;> simp [SetDefaultString, h]
  · by_cases h : m.str entry = "" <;> simp [SetDefaultString, h, Function.update, ho]
  · by_cases h : m.int entry = 0 <;> simp [SetDefaultInt, h]
  · by_cases h : m.int entry = 0 <;> simp [SetDefaultInt, h, Function.update, ho]
  · by_cases h : m.uint16 entry = 0 <;> simp [SetDefaultUInt16, h]
  · by_cases h : m.uint16 entry = 0 <;> simp [SetDefaultUInt16, h, Function.update, ho]
  · by_cases h : m.uint entry = 0 <;> simp [SetDefaultUint, h]
  · by_cases h : m.uint entry = 0 <;> simp [SetDefaultUint, h, Function.update, ho]
  · by_cases h : m.duration entry = 0 <;> simp [SetDefaultDuration, h]
  · by_cases h : m.duration entry = 0 <;> simp [SetDefaultDuration, h, Function.update, ho]

/-! ## Claims on termination -/

mutual
/-- Resolution ends with a result or with the panic of `Addr`. -/
theorem getTagKeyRecursive_outcome (tagSpec : String × String) (p : Nat) :
    (v : Value) → ∀ tag,
      (∃ path found, getTagKeyRecursive tagSpec v p tag = .ok (path, found))
        ∨ getTagKeyRecursive tagSpec v p tag =
            .error "reflect.Value.Addr of unaddressable value"
  | .invalid, _ => by simp [getTagKeyRecursive, Value.AddrPointer]
  | .scalar none, _ => by simp [getTagKeyRecursive, Value.AddrPointer]
  | .scalar (some a), tag => by
    by_cases h : a = p <;> simp [getTagKeyRecursive, Value.AddrPointer, h]
  | .ptr _ e, tag => by
    simpa [getTagKeyRecursive] using getTagKeyRecursive_outcome tagSpec p e tag
  | .struct a fields, tag => by
    rcases getTagKeyFields_outcome tagSpec p fields tag with ⟨r, hr⟩ | he
    · cases r with
      | some elemTag => simp [getTagKeyRecursive, hr]
      | none =>
        cases a with
        | none => simp [getTagKeyRecursive, hr, Value.AddrPointer]
        | some s =>
          by_cases h : s = p <;> simp [getTagKeyRecursive, hr, Value.AddrPointer, h]
    · simp [getTagKeyRecursive, he]
/-- The same for the loop over the fields. -/
theorem getTagKeyFields_outcome (tagSpec : String × String) (p : Nat) :
    (fields : Fields) → ∀ tag,
      (∃ r, getTagKeyFields tagSpec fields p tag = .ok r)
        ∨ getTagKeyFields tagSpec fields p tag =
            .error "reflect.Value.Addr of unaddressable value"
  | .nil, _ => by simp [getTagKeyFields]
  | .cons f v rest, tag => by
    rcases getTagKeyRecursive_outcome tagSpec p v (buildTag tagSpec f tag) with
      ⟨path, found, hr⟩ | he
    · cases found with
      | true => simp [getTagKeyFields, hr]
      | false =>
        simpa [getTagKeyFields, hr] using getTagKeyFields_outcome tagSpec p rest tag
    · simp [getTagKeyFields, he]
end

mutual
/-- When every pointer is set, resolution ends with a result. -/
theorem getTagKeyRecursive_ok (tagSpec : String × String) (p : Nat) :
    (v : Value) → v.allSet = true → ∀ tag,
      ∃ path found, getTagKeyRecursive tagSpec v p tag = .ok (path, found)
  | .invalid, h, _ => by simp [Value.allSet] at h
  | .scalar none, h, _ => by simp [Value.allSet] at h
  | .scalar (some a), _, tag => by
    by_cases h : a = p <;> simp [getTagKeyRecursive, Value.AddrPointer, h]
  | .ptr _ e, h, tag => by
    simpa [getTagKeyRecursive] using
      getTagKeyRecursive_ok tagSpec p e (by simpa [Value.allSet] using h) tag
  | .struct none fields, h, _ => by simp [Value.allSet] at h
  | .struct (some s) fields, h, tag => by
    have hf : fields.allSet = true := by
      simp [Value.allSet] at h; exact h
    obtain ⟨r, hr⟩ := getTagKeyFields_ok tagSpec p fields hf tag
    cases r with
    | some elemTag => simp [getTagKeyRecursive, hr]
    | none => by_cases h : s = p <;> simp [getTagKeyRecursive, hr, Value.AddrPointer, h]
/-- The same for the loop over the fields. -/
theorem getTagKeyFields_ok (tagSpec : String × String) (p : Nat) :
    (fields : Fields) → fields.allSet = true → ∀ tag,
      ∃ r, getTagKeyFields tagSpec fields p tag = .ok r
  | .nil, _, _ => by simp [getTagKeyFields]
  | .cons f v rest, h, tag => by
    have h2 : v.allSet = true ∧ rest.allSet = true := by simpa [Fields.allSet] using h
    obtain ⟨path, found, hr⟩ := getTagKeyRecursive_ok tagSpec p v h2.1 (buildTag tagSpec f tag)
    cases found with
    | true => simp [getTagKeyFields, hr]
    | false => simpa [getTagKeyFields, hr] using getTagKeyFields_ok tagSpec p rest h2.2 tag
end

mutual
/-- With a budget of activations that covers the depth of the tree of values, the bounded
run ends and gives what `getTagKeyRecursive` gives. -/
theorem getTagKeyBounded_of_depth_le (tagSpec : String × String) (p : Nat) :
    (v : Value) → ∀ budget tag, v.depth ≤ budget →
      getTagKeyBounded tagSpec budget v p tag = some (getTagKeyRecursive tagSpec v p tag)
  | .invalid, budget, tag, h => by
    cases budget with
    | zero => simp [Value.depth] at h
    | succ b => simp [getTagKeyBounded, getTagKeyRecursive, Value.AddrPointer]
  | .scalar a, budget, tag, h => by
    cases budget with
    | zero => simp [Value.depth] at h
    | succ b =>
      cases a with
      | none => simp [getTagKeyBounded, getTagKeyRecursive, Value.AddrPointer]
      | some x =>
        by_cases hx : x = p <;>
          simp [getTagKeyBounded, getTagKeyRecursive, Value.AddrPointer, hx]
  | .ptr _ e, budget, tag, h => by
    cases budget with
    | zero => simp [Value.depth] at h
    | succ b =>
      have he : e.depth ≤ b := by
        simp only [Value.depth] at h; omega
      simp [getTagKeyBounded, getTagKeyRecursive,
        getTagKeyBounded_of_depth_le tagSpec p e b tag he]
  | .struct a fields, budget, tag, h => by
    cases budget with
    | zero => simp [Value.depth] at h
    | succ b =>
      have hf : fields.depth ≤ b := by
        simp only [Value.depth] at h; omega
      have := getTagKeyFieldsBounded_of_depth_le tagSpec p fields b tag hf
      simp only [getTagKeyBounded, getTagKeyRecursive, this]
      cases hr : getTagKeyFields tagSpec fields p tag with
      | error e => rfl
      | ok r =>
        cases r with
        | some elemTag => rfl
        | none =>
          cases a with
          | none => simp [Value.AddrPointer]
          | some x => by_cases hx : x = p <;> simp [Value.AddrPointer, hx]
/-- The same for the loop over the fields. -/
theorem getTagKeyFieldsBounded_of_depth_le (tagSpec : String × String) (p : Nat) :
    (fields : Fields) → ∀ budget tag, fields.depth ≤ budget →
      getTagKeyFieldsBounded tagSpec budget fields p tag =
        some (getTagKeyFields tagSpec fields p tag)
  | .nil, _, _, _ => by simp [getTagKeyFieldsBounded, getTagKeyFields]
  | .cons f v rest, budget, tag, h => by
    have hv : v.depth ≤ budget := le_trans (le_max_left _ _) h
    have hr : rest.depth ≤ budget := le_trans (le_max_right _ _) h
    have h1 := getTagKeyBounded_of_depth_le tagSpec p v budget (buildTag tagSpec f tag) hv
    have h2 := getTagKeyFieldsBounded_of_depth_le tagSpec p rest budget tag hr
    simp only [getTagKeyFieldsBounded, getTagKeyFields, h1]
    cases hres : getTagKeyRecursive tagSpec v p (buildTag tagSpec f tag) with
    | error e => rfl
    | ok r =>
      obtain ⟨elemTag, found⟩ := r
      cases found with
      | true => rfl
      | false => simpa using h2
end

theorem depthWithin_pos (decls : Decls) (fuel : Nat) (t : GoType) (d : Nat)
    (h : t.depthWithin decls fuel = some d) : 1 ≤ d := by
  cases fuel with
  | zero => simp [GoType.depthWithin] at h
  | succ f =>
    cases t with
    | scalar => simp [GoType.depthWithin] at h; omega
    | ptr e =>
      simp only [GoType.depthWithin] at h
      split at h <;> simp at h
      omega
    | struct fields =>
      simp only [GoType.depthWithin] at h
      split at h <;> simp at h
      omega
    | named name =>
      simp only [GoType.depthWithin] at h
      split at h
      · simp at h
      · split at h <;> simp at h
        omega

mutual
/-- A root of a declared type with a nesting depth is, as a tree of values, no deeper than
the type. -/
theorem depth_le_of_hasType (decls : Decls) :
    (v : Value) → ∀ (t : GoType) (fuel d : Nat), v.hasType decls t = true →
      t.depthWithin decls fuel = some d → v.depth ≤ d
  | .invalid, t, _, _, h, _ => by cases t <;> simp [Value.hasType] at h
  | .scalar _, t, fuel, d, h, hd => by
    have := depthWithin_pos decls fuel t d hd
    simpa [Value.depth] using this
  | .ptr _ e, t, fuel, d, h, hd => by
    cases t with
    | scalar => simp [Value.hasType] at h
    | struct ts => simp [Value.hasType] at h
    | named name => simp [Value.hasType] at h
    | ptr t2 =>
      cases fuel with
      | zero => simp [GoType.depthWithin] at hd
      | succ f =>
        simp only [GoType.depthWithin] at hd
        split at hd
        · rename_i d2 hd2
          simp at hd
          have hpos := depthWithin_pos decls f t2 d2 hd2
          simp only [Value.hasType, Bool.or_eq_true] at h
          rcases h with hk | ht
          · have he : e = .invalid := by
              cases e <;> simp [Value.Kind] at hk
              rfl
            subst he
            simp only [Value.depth]
            omega
          · have := depth_le_of_hasType decls e t2 f d2 ht hd2
            simp only [Value.depth]
            omega
        · simp at hd
  | .struct _ fields, t, fuel, d, h, hd => by
    cases t with
    | scalar => simp [Value.hasType] at h
    | ptr t2 => simp [Value.hasType] at h
    | struct ts =>
      cases fuel with
      | zero => simp [GoType.depthWithin] at hd
      | succ f =>
        simp only [GoType.depthWithin] at hd
        split at hd
        · rename_i d2 hd2
          simp at hd
          have := depth_le_of_hasTypes decls fields ts f d2
            (by simpa [Value.hasType] using h) hd2
          simp only [Value.depth]
          omega
        · simp at hd
    | named name =>
      cases fuel with
      | zero => simp [GoType.depthWithin] at hd
      | succ f =>
        simp only [GoType.depthWithin] at hd
        simp only [Value.hasType] at h
        cases hl : decls.lookup name with
        | none => simp [hl] at h
        | some ts =>
          simp only [hl] at h hd
          split at hd
          · rename_i d2 hd2
            simp at hd
            have := depth_le_of_hasTypes decls fields ts f d2 h hd2
            simp only [Value.depth]
            omega
          · simp at hd
/-- The same for a list of fields. -/
theorem depth_le_of_hasTypes (decls : Decls) :
    (fields : Fields) → ∀ (ts : List (StructField × GoType)) (fuel d : Nat),
      fields.hasTypes decls ts = true →
      fieldsDepth (fun t => GoType.depthWithin decls fuel t) ts = some d → fields.depth ≤ d
  | .nil, _, _, _, _, _ => by simp [Fields.depth]
  | .cons f v rest, ts, fuel, d, h, hd => by
    cases ts with
    | nil => simp [Fields.hasTypes] at h
    | cons gt ts2 =>
      obtain ⟨g, t⟩ := gt
      simp only [Fields.hasTypes, Bool.and_eq_true] at h
      simp only [fieldsDepth] at hd
      split at hd
      · rename_i a b ha hb
        simp at hd
        have h1 := depth_le_of_hasType decls v t fuel a h.1.2 ha
        have h2 := depth_le_of_hasTypes decls rest ts2 fuel b h.2 hb
        simp only [Fields.depth]
        omega
      · simp at hd
end

theorem nodeDecls_lookup :
    nodeDecls.lookup "Node" =
      some [(yamlField "Name" "name", .scalar),
        (yamlField "Next" "next", .ptr (.named "Node"))] := rfl

theorem Kind_struct (a : Option Nat) (fields : Fields) :
    (Value.struct a fields).Kind = Kind.Struct := rfl

/-- What a `*Node` points to is nothing or a value of the declared type `Node`. -/
theorem nodeChain_hasType (k : Nat) :
    (nodeChain k).Kind = Kind.Invalid
      ∨ (nodeChain k).hasType nodeDecls (.named "Node") = true := by
  induction k with
  | zero => left; rfl
  | succ k ih =>
    right
    rw [nodeChain]
    simp only [Value.hasType, nodeDecls_lookup, Fields.hasTypes, Bool.and_eq_true,
      Bool.or_eq_true, beq_iff_eq, decide_eq_true_eq, and_true, true_and]
    exact ih

/-- Every list of nodes is of the declared type `*Node`. -/
theorem nodeList_hasType (k : Nat) : (nodeList k).hasType nodeDecls nodeType = true := by
  have h := nodeChain_hasType k
  simp only [nodeList, nodeType, Value.hasType, Bool.or_eq_true, beq_iff_eq]
  exact h

/-- The type `Node` and the type `*Node` have no nesting depth, whatever the fuel. -/
theorem nodeType_depthWithin (fuel : Nat) :
    GoType.depthWithin nodeDecls fuel (.named "Node") = none
      ∧ GoType.depthWithin nodeDecls fuel (.ptr (.named "Node")) = none := by
  induction fuel with
  | zero => simp [GoType.depthWithin]
  | succ f ih =>
    constructor
    · simp only [GoType.depthWithin, nodeDecls_lookup, fieldsDepth, ih.2]
      cases GoType.depthWithin nodeDecls f GoType.scalar <;> rfl
    · simp only [GoType.depthWithin, ih.1]

/-- Looking up the name of the last node from the head of a list of `k + 1` nodes needs
more than `2 * k + 1` nested activations. -/
theorem nodeChain_budget (tagSpec : String × String) (k : Nat) :
    ∀ (budget : Nat) (tag : String), budget ≤ 2 * k + 1 →
      getTagKeyBounded tagSpec budget (nodeChain (k + 1)) 1000 tag = none := by
  induction k with
  | zero =>
    intro budget tag h
    match budget, h with
    | 0, _ => simp [getTagKeyBounded]
    | 1, _ => simp [getTagKeyBounded, nodeChain, getTagKeyFieldsBounded]
  | succ k ih =>
    intro budget tag h
    match budget, h with
    | 0, _ => simp [getTagKeyBounded]
    | 1, _ =>
      rw [nodeChain]
      simp [getTagKeyBounded, getTagKeyFieldsBounded]
    | b + 2, h =>
      have hb : b ≤ 2 * k + 1 := by omega
      have hnext := ih b (buildTag tagSpec (yamlField "Next" "next") tag) hb
      have hne : ¬ (1000 + 32 * (k + 1) = 1000) := by omega
      rw [nodeChain]
      simp only [getTagKeyBounded, getTagKeyFieldsBounded, Value.AddrPointer, hne, if_false,
        hnext]

/-- The same from the pointer to the head: more than `2 * k + 2` nested activations. -/
theorem nodeList_budget (tagSpec : String × String) (k budget : Nat)
    (h : budget ≤ 2 * k + 2) :
    getTagKeyBounded tagSpec budget (nodeList (k + 1)) 1000 "" = none := by
  match budget, h with
  | 0, _ => simp [getTagKeyBounded]
  | b + 1, h =>
    have := nodeChain_budget tagSpec k b "" (by omega)
    simp only [nodeList, getTagKeyBounded, this]

/-- C17, as amended: for every root that is a tree of nested structures, pointers and
scalars, and every pointer to a scalar, resolution terminates: run with a budget of nested
activations that covers the depth of the tree it ends with what `GetTagKey` returns, a
result or the panic of `Addr` on a nil pointer, and a result when every pointer is set.
When the declared type of the root has a nesting depth, which a recursive type has not,
the tree is no deeper than the type, so that the recursion is no deeper than the nesting
depth of the declared type, whatever the values held by the fields. -/
theorem C17_resolution_depth_bounded (tagSpec : String × String) (decls : Decls)
    (config : Value) (typ : GoType) (fuel d : Nat) (typeName : String) (p : Nat)
    (htyp : config.hasType decls typ = true) (hdepth : typ.depthWithin decls fuel = some d) :
    (∀ budget, d ≤ budget →
        getTagKeyBounded tagSpec budget config p "" =
          some (GetTagKey tagSpec config (.pointer typeName .Scalar p)))
      ∧ config.depth ≤ d
      ∧ (∀ (root : Value) (budget : Nat), root.depth ≤ budget →
          getTagKeyBounded tagSpec budget root p "" =
            some (GetTagKey tagSpec root (.pointer typeName .Scalar p)))
      ∧ ((∃ path found,
            GetTagKey tagSpec config (.pointer typeName .Scalar p) = .ok (path, found))
          ∨ GetTagKey tagSpec config (.pointer typeName .Scalar p) =
              .error "reflect.Value.Addr of unaddressable value")
      ∧ (config.allSet = true →
          ∃ path found,
            GetTagKey tagSpec config (.pointer typeName .Scalar p) = .ok (path, found)) := by
  have hget : ∀ root : Value, GetTagKey tagSpec root (.pointer typeName .Scalar p) =
      getTagKeyRecursive tagSpec root p "" := by
    intro root; simp [GetTagKey]
  have hle : config.depth ≤ d := depth_le_of_hasType decls config typ fuel d htyp hdepth
  refine ⟨fun budget hb => ?_, hle, fun root budget hb => ?_, ?_, fun hset => ?_⟩
  · rw [hget]
    exact getTagKeyBounded_of_depth_le tagSpec p config budget "" (le_trans hle hb)
  · rw [hget]
    exact getTagKeyBounded_of_depth_le tagSpec p root budget "" hb
  · rw [hget]; exact getTagKeyRecursive_outcome tagSpec p config ""
  · rw [hget]; exact getTagKeyRecursive_ok tagSpec p config hset ""

/-- C17, instance: the example root is of the declared type `*Root`, of nesting depth 5; the
lookup of an address that is not in the root ends within 5 nested activations, and not
within 4. -/
theorem C17_resolution_depth_bounded_witness :
    getTagKeyBounded yamlSpec 5 exampleRoot 900 "" = some (.ok ("", false))
      ∧ getTagKeyBounded yamlSpec 4 exampleRoot 900 "" = none :=
  ⟨((C17_resolution_depth_bounded yamlSpec exampleDecls exampleRoot exampleType 5 5 "*string"
      900 (by decide) (by decide)).1 5 (le_refl 5)).trans (by decide),
    by decide⟩

/-- C17, as stated, fails: `type Node struct { Name string; Next *Node }` is a declared
type without a nesting depth, and among the roots of the declared type `*Node`, all of them
trees, the depth of the recursion follows the values of the `Next` fields. Looking up the
name of the last node ends within 3 nested activations on a list of one node and needs 7 on
a list of three, and whatever the budget there is a list on which it is not enough. -/
theorem C17_counterexample :
    (nodeList 1).hasType nodeDecls nodeType = true
      ∧ (nodeList 3).hasType nodeDecls nodeType = true
      ∧ GetTagKey yamlSpec (nodeList 1) (strPtr 1000) = .ok ("name", true)
      ∧ GetTagKey yamlSpec (nodeList 3) (strPtr 1000) = .ok ("next.next.name", true)
      ∧ getTagKeyBounded yamlSpec 3 (nodeList 1) 1000 "" = some (.ok ("name", true))
      ∧ getTagKeyBounded yamlSpec 3 (nodeList 3) 1000 "" = none
      ∧ getTagKeyBounded yamlSpec 6 (nodeList 3) 1000 "" = none
      ∧ getTagKeyBounded yamlSpec 7 (nodeList 3) 1000 "" = some (.ok ("next.next.name", true))
      ∧ (∀ fuel, nodeType.depthWithin nodeDecls fuel = none)
      ∧ (∀ budget, ∃ k, (nodeList k).hasType nodeDecls nodeType = true
          ∧ getTagKeyBounded yamlSpec budget (nodeList k) 1000 "" = none) := by
  refine ⟨by decide, by decide, by decide, by decide, by decide, by decide, by decide,
    by decide, fun fuel => (nodeType_depthWithin fuel).2, fun budget => ?_⟩
  exact ⟨budget + 1, nodeList_hasType (budget + 1),
    nodeList_budget yamlSpec budget budget (by omega)⟩

/-! ## Claims read from the code -/

/-- C18: the verifier registered by `StringXorWhen(a, b, cond)` has the description of the
one registered by `StringXor(a, b)`: "either", the name of `a`, "or", the name of `b`, and
"is mandatory, but only one can be set". The description of `cond` is not part of it: the
description is the same for every `cond`. -/
theorem C18_StringXorWhen_message (c : Checker) (a b : Nat) (cond : Condition) :
    ∃ u v, (c.StringXor a b).verifiers = c.verifiers ++ [u]
      ∧ (c.StringXorWhen a b cond).verifiers = c.verifiers ++ [v]
      ∧ v.cond.desc = u.cond.desc
      ∧ (∀ (m : Mem) (ta tb : String), c.tagKeyOrValue (strPtr a) = .ok ta →
          c.tagKeyOrValue (strPtr b) = .ok tb →
          v.cond.Desc m =
            .ok ("either " ++ ta ++ " or " ++ tb ++ " is mandatory, but only one can be set"))
      ∧ (∀ other : Condition, ∃ v2,
          (c.StringXorWhen a b other).verifiers = c.verifiers ++ [v2]
            ∧ v2.cond.desc = v.cond.desc) := by
  refine ⟨_, _, rfl, rfl, rfl, fun m ta tb ha hb => ?_, fun other => ⟨_, rfl, rfl⟩⟩
  simp [Condition.Desc, Checker.describeXor, ha, hb, bind, Except.bind, pure, Except.pure]

theorem append_or_ne (d : String) : " or " ++ d ≠ d := by
  intro h
  have h1 : (" or " ++ d).length = d.length := by rw [h]
  simp [String.length_append] at h1
  have : " or ".length = 4 := by decide
  omega

/-- C19: for all conditions `a`, `b`, `c`, `Or(Or(a, b), c)` and `Or(a, Or(b, c))` evaluate
and are described as `Or(a, b, c)`, and `And(And(a, b), c)` and `And(a, And(b, c))` as
`And(a, b, c)`. With an empty inner group the evaluation is still that of the flat group,
and the description is not: `Or(Or(), c)` is described as " or " followed by the
description of `c`, which differs from the description of `c` alone. -/
theorem C19_nesting_flattens (a b c : Condition) (m : Mem) :
    ((Or [Or [a, b], c]).Evaluate m = (Or [a, b, c]).Evaluate m
        ∧ (Or [a, Or [b, c]]).Evaluate m = (Or [a, b, c]).Evaluate m
        ∧ (Or [Or [a, b], c]).Desc m = (Or [a, b, c]).Desc m
        ∧ (Or [a, Or [b, c]]).Desc m = (Or [a, b, c]).Desc m)
      ∧ ((And [And [a, b], c]).Evaluate m = (And [a, b, c]).Evaluate m
        ∧ (And [a, And [b, c]]).Evaluate m = (And [a, b, c]).Evaluate m
        ∧ (And [And [a, b], c]).Desc m = (And [a, b, c]).Desc m
        ∧ (And [a, And [b, c]]).Desc m = (And [a, b, c]).Desc m)
      ∧ ((Or [Or [], c]).Evaluate m = (Or [c]).Evaluate m
        ∧ ∀ dc, c.Desc m = .ok dc →
            (Or [Or [], c]).Desc m = .ok (" or " ++ dc)
              ∧ (Or [c]).Desc m = .ok dc
              ∧ (Or [Or [], c]).Desc m ≠ (Or [c]).Desc m) := by
  refine ⟨⟨?_, ?_, ?_, ?_⟩, ⟨?_, ?_, ?_, ?_⟩, ?_, ?_⟩
  · cases ha : a.evaluate m <;> cases hb : b.evaluate m <;>
      simp [Or, splitConds, orEvaluate, Condition.Evaluate, ha, hb]
  · cases ha : a.evaluate m <;> cases hb : b.evaluate m <;>
      simp [Or, splitConds, orEvaluate, Condition.Evaluate, ha, hb]
  · cases ha : a.desc m <;> cases hb : b.desc m <;> cases hc : c.desc m <;>
      simp [Or, splitConds, evalDescs, Condition.Desc, ha, hb, hc, stringsJoin,
        String.append_assoc]
  · cases ha : a.desc m <;> cases hb : b.desc m <;> cases hc : c.desc m <;>
      simp [Or, splitConds, evalDescs, Condition.Desc, ha, hb, hc, stringsJoin,
        String.append_assoc]
  · cases ha : a.evaluate m <;> cases hb : b.evaluate m <;>
      simp [And, splitConds, andEvaluate, Condition.Evaluate, ha, hb]
  · cases ha : a.evaluate m <;> cases hb : b.evaluate m <;>
      simp [And, splitConds, andEvaluate, Condition.Evaluate, ha, hb]
  · cases ha : a.desc m <;> cases hb : b.desc m <;> cases hc : c.desc m <;>
      simp [And, splitConds, evalDescs, Condition.Desc, ha, hb, hc, stringsJoin,
        String.append_assoc]
  · cases ha : a.desc m <;> cases hb : b.desc m <;> cases hc : c.desc m <;>
      simp [And, splitConds, evalDescs, Condition.Desc, ha, hb, hc, stringsJoin,
        String.append_assoc]
  · simp [Or, splitConds, orEvaluate, Condition.Evaluate]
  · intro dc hc
    have hc2 : c.desc m = .ok dc := hc
    have h1 : (Or [Or [], c]).Desc m = .ok (" or " ++ dc) := by
      simp [Or, splitConds, evalDescs, Condition.Desc, hc2, stringsJoin]
    have h2 : (Or [c]).Desc m = .ok dc := by
      simp [Or, splitConds, evalDescs, Condition.Desc, hc2, stringsJoin]
    refine ⟨h1, h2, ?_⟩
    rw [h1, h2]
    intro h
    exact append_or_ne dc (Except.ok.inj h)

/-- C20, as amended: in a root whose pointers are all set and whose sibling fields occupy
distinct addresses, a scalar field with segment `b` inside a top-level structure field whose tag
under the key is empty or absent resolves to `(b, true)`, without the separator, which is
what every top-level scalar field of the root with segment `b` resolves to; a field with an
empty segment inside a top-level field with non-empty segment `a` resolves to `a` followed
by the separator; a field without a tag under the key has the empty segment. -/
theorem C20_untagged_parent_drops_separator (tagSpec : String × String) (config : Value)
    (path : List Nat) (chain : List StructField) (a : Nat) (typ : String)
    (hset : config.allSet = true) (hdist : config.distinct = true)
    (hloc : config.locate path = some (chain, a)) :
    (∀ fu fb, chain = [fu, fb] → localTag tagSpec fu = "" →
        GetTagKey tagSpec config (.pointer typ .Scalar a) = .ok (localTag tagSpec fb, true)
          ∧ ∀ path2 ft a2, config.locate path2 = some ([ft], a2) →
              localTag tagSpec ft = localTag tagSpec fb →
              GetTagKey tagSpec config (.pointer typ .Scalar a2) =
                GetTagKey tagSpec config (.pointer typ .Scalar a))
      ∧ (∀ fa fe, chain = [fa, fe] → localTag tagSpec fa ≠ "" → localTag tagSpec fe = "" →
        GetTagKey tagSpec config (.pointer typ .Scalar a) =
          .ok (localTag tagSpec fa ++ tagSpec.2, true))
      ∧ (∀ f : StructField, f.tag.lookup tagSpec.1 = none → localTag tagSpec f = "") := by
  have hres : GetTagKey tagSpec config (.pointer typ .Scalar a) =
      .ok (pathFrom tagSpec chain "", true) := by
    simp [GetTagKey, getTagKeyRecursive_hit tagSpec config path chain a hset hdist hloc ""]
  refine ⟨?_, ?_, ?_⟩
  · intro fu fb hc hu
    have h1 : GetTagKey tagSpec config (.pointer typ .Scalar a) =
        .ok (localTag tagSpec fb, true) := by
      rw [hres, hc]
      simp [pathFrom, buildTag_empty, hu]
    refine ⟨h1, fun path2 ft a2 hloc2 heq => ?_⟩
    rw [h1]
    simp [GetTagKey, getTagKeyRecursive_hit tagSpec config path2 [ft] a2 hset hdist hloc2 "",
      pathFrom, buildTag_empty, heq]
  · intro fa fe hc ha he
    rw [hres, hc]
    simp [pathFrom, buildTag_empty, buildTag_nonempty tagSpec fe _ ha, he]
  · intro f hf
    simp [localTag, StructField.tagGet, hf, firstCommaSegment]

/-- C20, instance: in one root the top-level field `B` and the field `B` of the untagged
structure field `U`, two fields at distinct addresses, both resolve to `b`; the untagged
field `E` of the structure field tagged `a` resolves to `a.`. -/
theorem C20_untagged_parent_drops_separator_witness :
    GetTagKey yamlSpec clashRoot (strPtr 200) = .ok ("b", true)
      ∧ GetTagKey yamlSpec clashRoot (strPtr 216) = .ok ("b", true)
      ∧ (200 : Nat) ≠ 216
      ∧ GetTagKey yamlSpec clashRoot (strPtr 232) = .ok ("a.", true) :=
  ⟨by decide,
    ((C20_untagged_parent_drops_separator yamlSpec clashRoot [1, 0]
      [plainField "U", yamlField "B" "b"] 216 "*string" (by decide) (by decide)
      (by decide)).1 (plainField "U") (yamlField "B" "b") rfl (by decide)).1,
    by decide,
    (C20_untagged_parent_drops_separator yamlSpec clashRoot [2, 0]
      [yamlField "A" "a", plainField "E"] 232 "*string" (by decide) (by decide)
      (by decide)).2.1 (yamlField "A" "a") (plainField "E") rfl (by decide) (by decide)⟩

/-- C20, as stated, fails: the claim names no condition on the root, and in a root where a
field of size zero comes before the untagged structure field `U`, the field `B` of `U`,
with segment `b`, lies at the address of that field and resolves to its tag `z`, not to
`b`. -/
theorem C20_counterexample :
    aliasRoot.locate [1, 0] = some ([plainField "U", yamlField "B" "b"], 300)
      ∧ localTag yamlSpec (plainField "U") = ""
      ∧ localTag yamlSpec (yamlField "B" "b") = "b"
      ∧ aliasRoot.allSet = true
      ∧ aliasRoot.distinct = false
      ∧ GetTagKey yamlSpec aliasRoot (strPtr 300) = .ok ("z", true)
      ∧ GetTagKey yamlSpec aliasRoot (strPtr 300) ≠ .ok ("b", true) := by
  decide

end SirdataConf
